import Mathlib

/-!
# Verification of the idle-game engine runtime core

A shallow embedding, in Lean 4, of the deterministic runtime core of the
data-driven incremental/idle game engine in this repository, together with
proofs about it.

Modelling conventions, used throughout:

* JavaScript plain values are modelled by the inductive type `JValue`
  (null / boolean / number / string / array / object).  Numbers are modelled
  as rationals (`ℚ`): every arithmetic operation the embedded code performs
  (addition, subtraction, division guarded by non-zero denominators,
  comparison, `Math.min`, `Math.abs`) is exact on the values the claims are
  about, so double rounding and overflow do not enter the statements.  The
  special values `NaN`/`±Infinity` are modelled explicitly (`JSNum`) only in
  the time-system section, where the code branches on `Number.isFinite`.
* JavaScript objects are association lists in insertion order; property read
  is first-match lookup, property write replaces the first match or appends.
  Reading a dotted path through an *array* element (`'0' in arr`) is not
  modelled: path reads treat arrays like other non-object values, which is
  exact for the stores and unlock states the claims quantify over.
* A method that can `throw` is embedded as a function into `Except String`;
  in the source every `throw` relevant to a claim happens before any
  mutation, and the embedding preserves this by construction.  Where a claim
  talks about the state an outside caller observes after catching, a
  `...Caught` wrapper returns the unchanged receiver together with the error.
-/

/-- JavaScript plain value (numbers as exact rationals; see header). -/
inductive JValue where
  | null : JValue
  | bool : Bool → JValue
  | num : ℚ → JValue
  | str : String → JValue
  | arr : List JValue → JValue
  | obj : List (String × JValue) → JValue
  deriving Repr

namespace JValue

/-- First-match property lookup on an object; `none` models `undefined`
(missing property, or receiver not an object). -/
def getProp : JValue → String → Option JValue
  | .obj kvs, k => (kvs.find? (fun kv => kv.1 = k)).map (·.2)
  | _, _ => none

/-- JS property assignment on an insertion-ordered object: replace the first
binding of the key, else append. -/
def objSet (kvs : List (String × JValue)) (k : String) (v : JValue) :
    List (String × JValue) :=
  match kvs with
  | [] => [(k, v)]
  | kv :: rest =>
    if kv.1 = k then (k, v) :: rest else kv :: objSet rest k v

end JValue

/-- JavaScript `String.prototype.split` with a one-character separator
(`''.split(sep)` is `['']`; separators at the ends produce empty pieces). -/
def splitChar (sep : Char) : List Char → List (List Char)
  | [] => [[]]
  | ch :: rest =>
    if ch = sep then [] :: splitChar sep rest
    else
      match splitChar sep rest with
      | [] => [[ch]]
      | s :: ss => (ch :: s) :: ss

/-- `path.split(sep)` on Lean strings. -/
def jsSplit (s : String) (sep : Char) : List String :=
  (splitChar sep s.toList).map String.mk

namespace UnlockCondition

/-! ## `src/engine/systems/unlocks/unlockCondition.js`

The repository holds this module in several revisions; the one embedded here
is the current one (the revision with strict-threshold and zero-threshold
progress handling), which is the revision the repository's own
`unlock-utils` tests pin down.
-/

/-- `isObject(value)`: plain-object check (`typeof value === 'object'`,
not null, not an array). -/
def isObject : JValue → Bool
  | .obj _ => true
  | _ => false

/-- `readPath(root, dottedPath)`: walk a dot-delimited path;
`{exists:false}` (here `none`) as soon as a segment is missing or the
current value is not a plain object. -/
def readPath (root : JValue) (dottedPath : String) : Option JValue :=
  go root (jsSplit dottedPath '.')
where
  go : JValue → List String → Option JValue
    | current, [] => some current
    | current, part :: rest =>
      match current.getProp part with
      | none => none
      | some next => if isObject current then go next rest else none

/-- The validated comparison operators (`COMPARISON_OPS`). -/
inductive CmpOp where
  | gt | gte | lt | lte | eq | neq
  deriving DecidableEq, Repr

/-- The parsed unlock-condition AST (output type of `parseUnlockCondition`:
exactly one operator per node, `all`/`any` children are arrays). -/
inductive Ast where
  | always : Bool → Ast
  | resourceGte : String → ℚ → Ast
  | compare : String → CmpOp → ℚ → Ast
  | flag : String → Ast
  | all : List Ast → Ast
  | any : List Ast → Ast
  | not : Ast → Ast
  deriving Repr

/-- `clampProgress(value)`: clamp to `[0,1]` (the `Number.isFinite` guard is
vacuous over `ℚ`). -/
def clampProgress (value : ℚ) : ℚ :=
  if value < 0 then 0 else if value > 1 then 1 else value

/-- `estimateZeroThresholdProgress(current)`: `1 / (1 + |current|)`,
clamped. -/
def estimateZeroThresholdProgress (current : ℚ) : ℚ :=
  clampProgress (1 / (1 + |current|))

/-- `Number.EPSILON` (`2⁻⁵²`, exact in binary64 and in `ℚ`). -/
def numberEpsilon : ℚ := 1 / 2 ^ 52

/-- Direction of a threshold comparison (`'at-least' | 'at-most'`). -/
inductive Direction where
  | atLeast | atMost
  deriving DecidableEq, Repr

/-- `estimateThresholdProgress({current, target, direction, strict})`:
stable progress approximation for threshold operators, with the strict
operators capped at `1 - Number.EPSILON` while the strict condition is
still false. -/
def estimateThresholdProgress (current target : ℚ) (direction : Direction)
    (strict : Bool) : ℚ :=
  match direction with
  | .atLeast =>
    let progress :=
      if current ≥ target then 1
      else if target = 0 then estimateZeroThresholdProgress current
      else if target > 0 then clampProgress (current / target)
      else clampProgress (target / current)
    if strict ∧ current ≤ target then min progress (1 - numberEpsilon)
    else progress
  | .atMost =>
    let progress :=
      if current ≤ target then 1
      else if target = 0 then estimateZeroThresholdProgress current
      else if target > 0 then clampProgress (target / current)
      else clampProgress (current / target)
    if strict ∧ current ≥ target then min progress (1 - numberEpsilon)
    else progress

/-- Is the read value a number (`typeof read.value === 'number'`)? -/
def asNumber : JValue → Option ℚ
  | .num q => some q
  | _ => none

/-- `evaluateUnlockCondition(ast, state)`: pure truth evaluation. -/
def evaluateUnlockCondition : Ast → JValue → Bool
  | .always b, _ => b
  | .resourceGte path value, state =>
    match (readPath state path).bind asNumber with
    | some q => q ≥ value
    | none => false
  | .compare path op value, state =>
    match (readPath state path).bind asNumber with
    | none => false
    | some q =>
      match op with
      | .gt => q > value
      | .gte => q ≥ value
      | .lt => q < value
      | .lte => q ≤ value
      | .eq => q = value
      | .neq => q ≠ value
  | .flag path, state =>
    match readPath state path with
    | some (.bool true) => true
    | _ => false
  | .all children, state =>
    children.attach.all (fun c => evaluateUnlockCondition c.1 state)
  | .any children, state =>
    children.attach.any (fun c => evaluateUnlockCondition c.1 state)
  | .not child, state => !evaluateUnlockCondition child state
termination_by ast _ => sizeOf ast
decreasing_by
  all_goals simp_wf
  all_goals (have h := List.sizeOf_lt_of_mem c.2; omega)

/-- `evaluateUnlockProgress(ast, state)`: canonical unlock-progress
estimator (the revision with `strict` threshold flags and the
`evaluateUnlockCondition` short-circuit on `not`). -/
def evaluateUnlockProgress : Ast → JValue → ℚ
  | .always b, _ => if b then 1 else 0
  | .resourceGte path value, state =>
    match (readPath state path).bind asNumber with
    | none => 0
    | some q =>
      if value ≤ 0 then (if q ≥ value then 1 else 0)
      else clampProgress (q / value)
  | .compare path op value, state =>
    match (readPath state path).bind asNumber with
    | none => 0
    | some q =>
      match op with
      | .eq => if evaluateUnlockCondition (.compare path .eq value) state then 1 else 0
      | .neq => if evaluateUnlockCondition (.compare path .neq value) state then 1 else 0
      | .gt => estimateThresholdProgress q value .atLeast true
      | .gte => estimateThresholdProgress q value .atLeast false
      | .lt => estimateThresholdProgress q value .atMost true
      | .lte => estimateThresholdProgress q value .atMost false
  | .flag path, state =>
    match readPath state path with
    | some (.bool true) => 1
    | _ => 0
  | .all children, state =>
    let total := (children.attach.map (fun c => evaluateUnlockProgress c.1 state)).sum
    clampProgress (total / children.length)
  | .any children, state =>
    children.attach.foldl
      (fun best c =>
        let childProgress := evaluateUnlockProgress c.1 state
        if childProgress > best then childProgress else best) 0
  | .not child, state =>
    if evaluateUnlockCondition (.not child) state then 1
    else clampProgress (1 - evaluateUnlockProgress child state)
termination_by ast _ => sizeOf ast
decreasing_by
  all_goals simp_wf
  all_goals (have h := List.sizeOf_lt_of_mem c.2; omega)

/-- Result record of `evaluateUnlockTransition`. -/
structure TransitionResult where
  unlocked : Bool
  transitioned : Bool
  deriving DecidableEq, Repr

/-- `evaluateUnlockTransition({wasUnlocked, ast, state, phase})`: throws
unless `phase == 'end-of-tick'`; an already-unlocked target is retained
without re-evaluating its AST. -/
def evaluateUnlockTransition (wasUnlocked : Bool) (ast : Ast) (state : JValue)
    (phase : String) : Except String TransitionResult :=
  if phase ≠ "end-of-tick" then
    .error "Unlock transitions must be evaluated at end-of-tick"
  else if wasUnlocked then
    .ok { unlocked := true, transitioned := false }
  else
    let nowUnlocked := evaluateUnlockCondition ast state
    .ok { unlocked := nowUnlocked, transitioned := nowUnlocked }

end UnlockCondition

namespace EventBus

/-! ## `src/engine/systems/event-bus/EventBus.js`

Only the dispatch machinery is embedded (the part claim C3 cites).
`publish(event)` never runs a handler: it normalizes, optionally validates,
and appends to `this.queue`, so the queue at the start of `dispatchQueued`
is exactly the list of published events in publish order; the embedding
takes that queue as data.  A handler is an arbitrary callback; its entire
effect on the bus during dispatch is the list of events it publishes
(appended, already normalized, to the current queue), which is how it is
modelled here.  Handlers cannot change the subscriber map mid-dispatch in
this model, matching the per-cycle snapshot the source takes. -/

/-- A normalized event (fields beyond `type` are carried but never inspected
by dispatch). -/
structure Event where
  type : String
  payload : JValue := .obj []
  source : String := "unknown"
  deriving Repr

/-- A subscription entry `{token, handler, scope}`. -/
structure Subscriber where
  token : Nat
  handler : Event → List Event
  scope : Option String := none

/-- `this.subscribers.get(eventType) || []` on the insertion-ordered map. -/
def subsFor (subs : List (String × List Subscriber)) (ty : String) :
    List Subscriber :=
  match subs.find? (fun e => e.1 = ty) with
  | some e => e.2
  | none => []

/-- The bus state entering `dispatchQueued`. -/
structure Bus where
  queue : List Event
  subscribers : List (String × List Subscriber)
  maxEventsPerTick : Nat := 10000
  maxDispatchCyclesPerTick : Nat := 1000

/-- One handler invocation (`subscriber.handler(event)`), recorded in
invocation order; `delivered` in the source counts these. -/
structure Delivery where
  token : Nat
  event : Event
  deriving Repr

/-- Report record built at the end of `dispatchQueued`. -/
structure DispatchReport where
  cyclesProcessed : Nat
  eventsProcessed : Nat
  deliveredHandlers : Nat
  deferredEvents : Nat
  deferredDueToCycleLimit : Bool
  deriving Repr

/-- The inner `for (const event of dispatchQueue)` loop: counts events
(fatal past `maxEventsPerTick`), invokes the snapshot's handlers for each
event in order, collects the handler publishes for the fresh queue. -/
def runEvents (snapshot : List (String × List Subscriber)) (maxE : Nat) :
    List Event → Nat → Except String (List Delivery × List Event × Nat)
  | [], processed => .ok ([], [], processed)
  | e :: rest, processed =>
    let processed' := processed + 1
    if maxE < processed' then
      .error "EventBus dispatch exceeded maxEventsPerTick"
    else
      let handlers := subsFor snapshot e.type
      let ds := handlers.map (fun s => Delivery.mk s.token e)
      let pubs := (handlers.map (fun s => s.handler e)).flatten
      match runEvents snapshot maxE rest processed' with
      | .error err => .error err
      | .ok (ds', pubs', p'') => .ok (ds ++ ds', pubs ++ pubs', p'')

/-- The outer `while (queue.length > 0 && cyclesProcessed < max)` loop,
with `fuel = maxDispatchCyclesPerTick - cyclesProcessed`.  Each cycle
detaches the queue, snapshots subscribers, processes the detached queue and
continues with the events published during the cycle.  Returns the trace,
the number of cycles run, the event counter and the deferred queue. -/
def dispatchGo (subs : List (String × List Subscriber)) (maxE : Nat) :
    Nat → List Event → Nat →
      Except String (List Delivery × Nat × Nat × List Event)
  | 0, queue, processed => .ok ([], 0, processed, queue)
  | _ + 1, [], processed => .ok ([], 0, processed, [])
  | fuel + 1, e :: rest, processed =>
    match runEvents subs maxE (e :: rest) processed with
    | .error err => .error err
    | .ok (ds, pubs, p') =>
      match dispatchGo subs maxE fuel pubs p' with
      | .error err => .error err
      | .ok (ds', cycles, p'', deferred) =>
        .ok (ds ++ ds', cycles + 1, p'', deferred)

/-- `dispatchQueued()`: run the cycle loop, then report.  The source
returns the delivered-handler count (`trace.length` here); the trace itself
is the observable invocation order, returned so ordering can be stated. -/
def Bus.dispatchQueued (bus : Bus) :
    Except String (List Delivery × DispatchReport × Bus) :=
  match dispatchGo bus.subscribers bus.maxEventsPerTick
      bus.maxDispatchCyclesPerTick bus.queue 0 with
  | .error err => .error err
  | .ok (trace, cycles, processed, deferred) =>
    .ok (trace,
      { cyclesProcessed := cycles
        eventsProcessed := processed
        deliveredHandlers := trace.length
        deferredEvents := deferred.length
        deferredDueToCycleLimit := decide (deferred.length > 0) },
      { bus with queue := deferred })

/-- Specification view of one cycle: the deliveries it makes, per event in
queue order, per subscriber in subscription order. -/
def cycleDeliveries (subs : List (String × List Subscriber))
    (es : List Event) : List Delivery :=
  (es.map (fun e => (subsFor subs e.type).map (fun s => Delivery.mk s.token e))).flatten

/-- Specification view of one cycle: the events its handlers publish, in
publish order; these form the queue of the next cycle. -/
def cyclePublished (subs : List (String × List Subscriber))
    (es : List Event) : List Event :=
  (es.map (fun e => ((subsFor subs e.type).map (fun s => s.handler e)).flatten)).flatten

/-- Specification view of the cycle loop: the input queue of every executed
cycle (each one the publishes of its predecessor), and the deferred queue. -/
def busCycles (subs : List (String × List Subscriber)) :
    Nat → List Event → List (List Event) × List Event
  | 0, queue => ([], queue)
  | _ + 1, [] => ([], [])
  | fuel + 1, e :: rest =>
    let step := busCycles subs fuel (cyclePublished subs (e :: rest))
    ((e :: rest) :: step.1, step.2)

end EventBus

namespace UnlockEvaluator

/-! ## `UnlockEvaluator` (`src/unnamed/part_006`)

`evaluateAll` reads `this.stateStore.snapshot().canonical` (passed here as
the `state` argument — snapshots of pure values are the values themselves),
walks `this.targets` in enumeration order keeping `this.unlockedByRef`
(a string-keyed map, modelled as a function with pointwise update), and for
each transitioned target records the transition and publishes `UNLOCKED` on
the event bus.  The theorems quantify over arbitrary target lists, which
covers every list `#collectTargets` can enumerate from a definition. -/

open UnlockCondition

/-- One entry of `this.targets` (`#buildTarget`: a reference plus its parsed
unlock AST, defaulting to `always:true`). -/
structure Target where
  ref : String
  ast : Ast

/-- Summary under construction (`unlockedRefs`, `unlocked`, `transitions`),
each grown in enumeration order; `unlocked` is a JS object, so assignment
replaces an existing key in place. -/
structure EvalSummary where
  unlockedRefs : List String
  unlocked : List (String × Bool)
  transitions : List String
  deriving Repr

/-- JS object assignment for the `unlocked` summary map. -/
def setUnlocked (kvs : List (String × Bool)) (k : String) (v : Bool) :
    List (String × Bool) :=
  match kvs with
  | [] => [(k, v)]
  | kv :: rest =>
    if kv.1 = k then (k, v) :: rest else kv :: setUnlocked rest k v

/-- The `this.eventBus.publish({type:'UNLOCKED', source, payload})` call for
a transitioned target. -/
def unlockedEvent (ref : String) : EventBus.Event :=
  { type := "UNLOCKED"
    source := "UnlockEvaluator"
    payload := .obj [("targetRef", .str ref)] }

/-- The `for (const target of this.targets)` loop of `evaluateAll`,
threading `unlockedByRef`, the summary and the publish calls. -/
def evaluateAllGo (state : JValue) (phase : String) :
    List Target → (String → Bool) → EvalSummary → List EventBus.Event →
      Except String ((String → Bool) × EvalSummary × List EventBus.Event)
  | [], u, s, pubs => .ok (u, s, pubs)
  | t :: rest, u, s, pubs =>
    match evaluateUnlockTransition (u t.ref) t.ast state phase with
    | .error err => .error err
    | .ok tr =>
      let u' := fun r => if r = t.ref then tr.unlocked else u r
      let s' : EvalSummary :=
        { unlockedRefs := s.unlockedRefs ++ (if tr.unlocked then [t.ref] else [])
          unlocked := setUnlocked s.unlocked t.ref tr.unlocked
          transitions := s.transitions ++ (if tr.transitioned then [t.ref] else []) }
      let pubs' := pubs ++ (if tr.transitioned then [unlockedEvent t.ref] else [])
      evaluateAllGo state phase rest u' s' pubs'

/-- `evaluateAll(options)`: `options.phase || 'end-of-tick'` (an absent or
empty phase defaults), then the loop over the targets. -/
def evaluateAll (targets : List Target) (u : String → Bool) (state : JValue)
    (phaseOpt : Option String) :
    Except String ((String → Bool) × EvalSummary × List EventBus.Event) :=
  let phase :=
    match phaseOpt with
    | some p => if p = "" then "end-of-tick" else p
    | none => "end-of-tick"
  evaluateAllGo state phase targets u ⟨[], [], []⟩ []

/-- The `unlockedByRef` map after one `evaluateAll({phase:'end-of-tick'})`
call (total on the caller's side: with that phase the call never throws). -/
def stepUnlocked (targets : List Target) (state : JValue)
    (u : String → Bool) : String → Bool :=
  match evaluateAll targets u state (some "end-of-tick") with
  | .ok (u', _, _) => u'
  | .error _ => u

/-- The `unlockedByRef` map after the first `n` of a session's end-of-tick
`evaluateAll` calls, the canonical snapshots between calls being arbitrary. -/
def unlockedAfter (targets : List Target) (u : String → Bool)
    (states : List JValue) (n : Nat) : String → Bool :=
  (states.take n).foldl (fun acc st => stepUnlocked targets st acc) u

end UnlockEvaluator


namespace EventBus

/-- A two-subscriber cascade fixture: the `"A"` subscriber re-publishes a
`"B"` event, the `"B"` subscriber publishes nothing. -/
def sampleBus : Bus :=
  { queue := [{ type := "A" }]
    subscribers :=
      [("A", [{ token := 1, handler := fun _ => [{ type := "B" }] }]),
        ("B", [{ token := 2, handler := fun _ => [] }])]
    maxEventsPerTick := 10
    maxDispatchCyclesPerTick := 10 }

/-- The delivery trace `dispatchQueued` produces on `sampleBus`. -/
def sampleDispatchTrace : List Delivery :=
  [⟨1, { type := "A" }⟩, ⟨2, { type := "B" }⟩]

/-- The dispatch report produced on `sampleBus`. -/
def sampleDispatchReport : DispatchReport :=
  { cyclesProcessed := 2
    eventsProcessed := 2
    deliveredHandlers := 2
    deferredEvents := 0
    deferredDueToCycleLimit := false }

end EventBus

/-- JS whitespace characters recognised by the model of
`String.prototype.trim` (the claims only add these around segments). -/
def isJsWhitespace (c : Char) : Bool :=
  c = ' ' ∨ c = '\t' ∨ c = '\n' ∨ c = '\r'

/-- `String.prototype.trim` on a character list. -/
def trimChars (l : List Char) : List Char :=
  ((l.dropWhile isJsWhitespace).reverse.dropWhile isJsWhitespace).reverse

/-- `String.prototype.trim`. -/
def jsTrim (s : String) : String :=
  String.mk (trimChars s.toList)

/-- `String.prototype.startsWith`. -/
def jsStartsWith (s pre : String) : Bool :=
  pre.toList.isPrefixOf s.toList

/-- JS truthiness of a plain value (`NaN`, absent from `JValue`, is also
falsy in JS but never reaches a truthiness test in the claims). -/
def jsTruthy : JValue → Bool
  | .null => false
  | .bool b => b
  | .num q => !(q = 0)
  | .str s => !(s = "")
  | .arr _ => true
  | .obj _ => true

namespace StateStore

/-! ## `src/engine/systems/state-store/StateStore.js` -/

/-- `isPlainObject(value)`. -/
def isPlainObject : JValue → Bool
  | .obj _ => true
  | _ => false

/-- `deepClone(value)`: structural copy (provably the identity on pure
values, mirroring that the source clone preserves structure). -/
def deepClone : JValue → JValue
  | .null => .null
  | .bool b => .bool b
  | .num q => .num q
  | .str s => .str s
  | .arr items => .arr (items.attach.map (fun i => deepClone i.1))
  | .obj kvs => .obj (kvs.attach.map (fun kv => (kv.1.1, deepClone kv.1.2)))
termination_by v => sizeOf v
decreasing_by
  · have := List.sizeOf_lt_of_mem i.2; simp_wf; omega
  · have h1 := List.sizeOf_lt_of_mem kv.2
    have h2 : sizeOf kv.1.2 < sizeOf kv.1 := by
      obtain ⟨a, b⟩ := kv.1; simp
    simp_wf; omega

/-- `splitPath(path)`: throws on a blank path, else splits on dots. -/
def splitPath (path : String) : Except String (List String) :=
  if (jsTrim path).length = 0 then .error "path must be a non-empty string"
  else .ok (jsSplit path '.')

/-- The descent of `readPath` over already-split parts. -/
def readParts : JValue → List String → Option JValue
  | current, [] => some current
  | current, part :: rest =>
    if isPlainObject current then
      match current.getProp part with
      | none => none
      | some next => readParts next rest
    else none

/-- `readPath(root, path)` (throws via `splitPath` on a blank path). -/
def readPath (root : JValue) (path : String) : Except String (Option JValue) :=
  (splitPath path).map (readParts root)

/-- The descent of `writePath` over already-split parts: missing or
non-object intermediates are replaced by fresh empty objects. -/
def writeParts : List (String × JValue) → List String → JValue →
    List (String × JValue)
  | kvs, [], _ => kvs
  | kvs, [last], v => JValue.objSet kvs last v
  | kvs, part :: rest, v =>
    let next : List (String × JValue) :=
      match JValue.getProp (.obj kvs) part with
      | some (.obj nkvs) => nkvs
      | _ => []
    JValue.objSet kvs part (.obj (writeParts next rest v))

/-- `writePath(root, path, value)`. -/
def writePath (root : List (String × JValue)) (path : String) (v : JValue) :
    Except String (List (String × JValue)) :=
  (splitPath path).map (fun parts => writeParts root parts v)

/-- The spread merge `{ ...(current || {}), ...partial }`. -/
def objMerge (a b : List (String × JValue)) : List (String × JValue) :=
  b.foldl (fun acc kv => JValue.objSet acc kv.1 kv.2) a

/-- `patchPath(root, path, partial)`. -/
def patchPath (root : List (String × JValue)) (path : String)
    (partial' : JValue) : Except String (List (String × JValue)) :=
  if ¬isPlainObject partial' then .error "partial must be a plain object"
  else
    match splitPath path with
    | .error e => .error e
    | .ok parts =>
      let current := readParts (.obj root) parts
      match current with
      | some c =>
        match c with
        | .obj ckvs =>
          writePath root path (.obj (objMerge ckvs (objKvs (deepClone partial'))))
        | _ => .error "Cannot patch non-object value"
      | none => writePath root path (.obj (objMerge [] (objKvs (deepClone partial'))))
where
  objKvs : JValue → List (String × JValue)
    | .obj kvs => kvs
    | _ => []

/-- The store: two disjoint namespaces, both rooted at plain objects. -/
structure Store where
  canonicalState : List (String × JValue)
  derivedState : List (String × JValue)

/-- `#assertCanonicalWritePath(path)`. -/
def assertCanonicalWritePath (path : String) : Except String Unit :=
  if path = "derived" ∨ jsStartsWith path "derived." then
    .error "StateStore canonical policy violation: set/patch cannot write into derived state namespace."
  else .ok ()

/-- `set(path, value)` (the policy assertion runs before any write). -/
def Store.set (s : Store) (path : String) (v : JValue) : Except String Store :=
  match assertCanonicalWritePath path with
  | .error e => .error e
  | .ok _ =>
    match writePath s.canonicalState path (deepClone v) with
    | .error e => .error e
    | .ok c => .ok { s with canonicalState := c }

/-- `patch(path, partial)` (the policy assertion runs before any write). -/
def Store.patch (s : Store) (path : String) (partial' : JValue) :
    Except String Store :=
  match assertCanonicalWritePath path with
  | .error e => .error e
  | .ok _ =>
    match patchPath s.canonicalState path partial' with
    | .error e => .error e
    | .ok c => .ok { s with canonicalState := c }

/-- `setDerived(path, value)`. -/
def Store.setDerived (s : Store) (path : String) (v : JValue) :
    Except String Store :=
  if (jsTrim path).length = 0 then .error "path must be a non-empty string"
  else
    match writePath s.derivedState path (deepClone v) with
    | .error e => .error e
    | .ok d => .ok { s with derivedState := d }

/-- What a caller that catches the exception observes: the same store
object, untouched, plus the error (`throw` precedes every write). -/
def Store.setCaught (s : Store) (path : String) (v : JValue) :
    Store × Option String :=
  match s.set path v with
  | .ok s2 => (s2, none)
  | .error e => (s, some e)

/-- Catching wrapper for `patch`; see `Store.setCaught`. -/
def Store.patchCaught (s : Store) (path : String) (partial' : JValue) :
    Store × Option String :=
  match s.patch path partial' with
  | .ok s2 => (s2, none)
  | .error e => (s, some e)

end StateStore

namespace IntentRouter

/-! ## Intent catalog (`src/engine/systems/catalogs/...`) and
`src/engine/systems/intent/IntentRouter.js` -/

/-- `isPlainObject(value)` of the catalog module. -/
def isPlainObject : JValue → Bool
  | .obj _ => true
  | _ => false

/-- `typeof payload[key] === 'string' && payload[key].length > 0`. -/
def expectNonEmptyString (p : JValue) (key : String) : Bool :=
  match p.getProp key with
  | some (.str s) => !(s = "")
  | _ => false

/-- `payload[key] === undefined || typeof payload[key] === 'string'`. -/
def ensureOptionalString (p : JValue) (key : String) : Bool :=
  match p.getProp key with
  | none => true
  | some (.str _) => true
  | some _ => false

/-- One intent-catalog entry: payload validator, routing target,
lock-check policy. -/
structure CatalogEntry where
  validatePayload : JValue → Option String
  routingTarget : String
  lockCheckPolicy : String

/-- `START_JOB` / `STOP_JOB` payload validator shape. -/
def validateJobPayload (p : JValue) : Option String :=
  if ¬isPlainObject p then some "payload must be an object"
  else if ¬expectNonEmptyString p "targetRef" then
    some "payload.targetRef must be a non-empty string"
  else if ¬expectNonEmptyString p "jobId" then
    some "payload.jobId must be a non-empty string"
  else none

/-- `REQUEST_LAYER_RESET` payload validator. -/
def validateRequestLayerResetPayload (p : JValue) : Option String :=
  if ¬isPlainObject p then some "payload must be an object"
  else if ¬ensureOptionalString p "targetRef" then
    some "payload.targetRef must be a string when provided"
  else if ¬expectNonEmptyString p "layerId" then
    some "payload.layerId must be a non-empty string"
  else if ¬ensureOptionalString p "reason" then
    some "payload.reason must be a string when provided"
  else none

/-- `PULL_GACHA` payload validator (`count` must be a positive number;
finiteness is intrinsic to `ℚ`). -/
def validatePullGachaPayload (p : JValue) : Option String :=
  if ¬isPlainObject p then some "payload must be an object"
  else if ¬expectNonEmptyString p "targetRef" then
    some "payload.targetRef must be a non-empty string"
  else if ¬expectNonEmptyString p "bannerId" then
    some "payload.bannerId must be a non-empty string"
  else
    match p.getProp "count" with
    | some (.num q) =>
      if q ≤ 0 then some "payload.count must be a positive finite number"
      else none
    | _ => some "payload.count must be a positive finite number"

/-- `ACTIVATE_MINIGAME` payload validator. -/
def validateActivateMinigamePayload (p : JValue) : Option String :=
  if ¬isPlainObject p then some "payload must be an object"
  else if ¬expectNonEmptyString p "targetRef" then
    some "payload.targetRef must be a non-empty string"
  else if ¬expectNonEmptyString p "minigameId" then
    some "payload.minigameId must be a non-empty string"
  else none

/-- `getIntentCatalogEntry(intentType)` over the frozen `INTENT_CATALOG`
(every seeded entry uses the `reject-if-target-locked` policy). -/
def getIntentCatalogEntry (t : String) : Option CatalogEntry :=
  if t = "START_JOB" then
    some ⟨validateJobPayload, "progressLayer", "reject-if-target-locked"⟩
  else if t = "STOP_JOB" then
    some ⟨validateJobPayload, "progressLayer", "reject-if-target-locked"⟩
  else if t = "REQUEST_LAYER_RESET" then
    some ⟨validateRequestLayerResetPayload, "LayerResetService",
      "reject-if-target-locked"⟩
  else if t = "PULL_GACHA" then
    some ⟨validatePullGachaPayload, "gachaLayer", "reject-if-target-locked"⟩
  else if t = "ACTIVATE_MINIGAME" then
    some ⟨validateActivateMinigamePayload, "minigameLayer",
      "reject-if-target-locked"⟩
  else none

/-- A raw intent (`payload`/`source` may be absent). -/
structure Intent where
  type : String
  payload : Option JValue := none
  source : Option String := none

/-- A normalized intent. -/
structure NormalizedIntent where
  type : String
  payload : JValue
  source : String

/-- An intent handler (invoked as `handler(normalized, entry)`; the
`typeof handler === 'function'` check is intrinsic to the type). -/
def Handler := NormalizedIntent → CatalogEntry → JValue

/-- The router state. -/
structure Router where
  strictValidation : Bool
  handlers : String → Option Handler
  isNodeLocked : JValue → Bool

/-- `#normalizeIntent(intent)`: requires a non-empty `type`, defaults a
falsy `payload` to `{}` and a falsy `source` to `'ui'`. -/
def normalizeIntent (intent : Intent) : Except String NormalizedIntent :=
  if intent.type = "" then .error "intent.type must be a non-empty string"
  else
    .ok { type := intent.type
          payload :=
            match intent.payload with
            | some p => if jsTruthy p then p else .obj []
            | none => .obj []
          source :=
            match intent.source with
            | some s => if s = "" then "ui" else s
            | none => "ui" }

/-- A routing result (`ok`, `code`, and the optional fields the source
attaches per outcome). -/
structure RouteResult where
  ok : Bool
  code : String
  reason : Option String := none
  routingTarget : Option String := none
  result : Option JValue := none

/-- `register(intentType, handler)`: rejects an empty type, then stores the
handler under the type (`Map.set`: an existing handler is replaced). -/
def Router.register (r : Router) (intentType : String) (handler : Handler) :
    Except String Router :=
  if intentType = "" then .error "intentType must be a non-empty string"
  else
    .ok { r with
      handlers := fun t => if t = intentType then some handler else r.handlers t }

/-- Steps 5-6 of `route`: handler lookup and invocation. -/
def dispatchToHandler (r : Router) (n : NormalizedIntent)
    (entry : CatalogEntry) : RouteResult :=
  match r.handlers n.type with
  | none =>
    { ok := false, code := "INTENT_HANDLER_MISSING"
      reason := some "No handler registered for intent"
      routingTarget := some entry.routingTarget }
  | some handler =>
    { ok := true, code := "INTENT_ROUTED"
      routingTarget := some entry.routingTarget
      result := some (handler n entry) }

/-- `route(intent)`: normalize, catalog lookup, strict payload validation,
lock-policy check on a truthy `payload.targetRef`, handler dispatch. -/
def Router.route (r : Router) (intent : Intent) : Except String RouteResult :=
  match normalizeIntent intent with
  | .error e => .error e
  | .ok n =>
    match getIntentCatalogEntry n.type with
    | none =>
      .ok { ok := false, code := "INTENT_CATALOG_MISSING"
            reason := some "Intent catalog missing entry" }
    | some entry =>
      let payloadError : Option String :=
        if r.strictValidation then entry.validatePayload n.payload else none
      match payloadError with
      | some err =>
        .ok { ok := false, code := "INTENT_PAYLOAD_INVALID", reason := some err }
      | none =>
        if entry.lockCheckPolicy = "reject-if-target-locked" then
          match n.payload.getProp "targetRef" with
          | some tv =>
            if jsTruthy tv && r.isNodeLocked tv then
              .ok { ok := false, code := "INTENT_TARGET_LOCKED"
                    reason := some "Target node is locked"
                    routingTarget := some entry.routingTarget }
            else .ok (dispatchToHandler r n entry)
          | none => .ok (dispatchToHandler r n entry)
        else .ok (dispatchToHandler r n entry)

/-- The options `createRuntimeSystems` consults for the router wiring. -/
structure RuntimeOptions where
  devModeStrict : Option Bool := none
  isNodeLocked : Option (JValue → Bool) := none

/-- The intent-router wiring of `createRuntimeSystems`:
`strictValidation = options.devModeStrict !== false` and
`isNodeLocked = options.isNodeLocked || (() => false)`; no handler is
registered at construction. -/
def createRuntimeSystemsIntentRouter (options : RuntimeOptions) : Router :=
  { strictValidation :=
      match options.devModeStrict with
      | some false => false
      | _ => true
    handlers := fun _ => none
    isNodeLocked := options.isNodeLocked.getD (fun _ => false) }

/-- An empty strict router with the default (constant-false) predicate. -/
def emptyRouter : Router :=
  { strictValidation := true, handlers := fun _ => none
    isNodeLocked := fun _ => false }

/-- A first handler registered for `START_JOB`. -/
def handlerA : Handler := fun _ _ => .str "h1"

/-- A second handler registered for `START_JOB` afterwards. -/
def handlerB : Handler := fun _ _ => .str "h2"

/-- `emptyRouter` after `register('START_JOB', handlerA)`. -/
def routerA : Router :=
  { emptyRouter with
    handlers := fun t => if t = "START_JOB" then some handlerA
      else emptyRouter.handlers t }

/-- `routerA` after `register('START_JOB', handlerB)`. -/
def routerAB : Router :=
  { routerA with
    handlers := fun t => if t = "START_JOB" then some handlerB
      else routerA.handlers t }

/-- The scenario-S5 intent: `START_JOB` at the still-locked jobs section. -/
def startJobIntent : Intent :=
  { type := "START_JOB"
    payload := some (.obj
      [("targetRef", .str "layer:idle/sublayer:main/section:jobs"),
        ("jobId", .str "x")]) }

/-- The router `createRuntimeSystems` builds when the host supplies no
`isNodeLocked` option (as the engine's `initialize` does). -/
def defaultWiredRouter : Router := createRuntimeSystemsIntentRouter {}

end IntentRouter

namespace TimeSystem

/-! ## `TimeSystem` (`src/unnamed/part_006`) and
`GameEngine.#runTimePhase` (`src/engine/core/GameEngine.js`)

The clock (`options.now`, defaulting to `Date.now`) is an arbitrary
function; it is modelled as the stream of readings handed to successive
`getDeltaTime` calls, each reading an arbitrary JS number including
`NaN`/`±Infinity`. -/

/-- A JS number: finite (exact rational) or one of the specials. -/
inductive JSNum where
  | fin : ℚ → JSNum
  | nan : JSNum
  | posInf : JSNum
  | negInf : JSNum
  deriving DecidableEq, Repr

/-- `Number.isFinite`. -/
def jsIsFinite : JSNum → Bool
  | .fin _ => true
  | _ => false

/-- JS subtraction `current - lastNow`. -/
def jsSub : JSNum → JSNum → JSNum
  | .fin a, .fin b => .fin (a - b)
  | .nan, _ => .nan
  | .fin _, .nan => .nan
  | .posInf, .nan => .nan
  | .negInf, .nan => .nan
  | .posInf, .posInf => .nan
  | .posInf, .fin _ => .posInf
  | .posInf, .negInf => .posInf
  | .negInf, .negInf => .nan
  | .negInf, .fin _ => .negInf
  | .negInf, .posInf => .negInf
  | .fin _, .posInf => .negInf
  | .fin _, .negInf => .posInf

/-- JS `x < 0`. -/
def jsLtZero : JSNum → Bool
  | .fin q => q < 0
  | .negInf => true
  | _ => false

/-- Constructor options. -/
structure Options where
  tickRate : Option JSNum := none

/-- The system state after the constructor:
`tickRate = Number.isFinite(options.tickRate) && options.tickRate > 0 ?
options.tickRate : 60`, `tickDurationMs = 1000 / tickRate`,
`lastNow = null`. -/
structure System where
  tickRate : ℚ
  tickDurationMs : ℚ
  lastNow : Option JSNum

/-- `new TimeSystem(options)`. -/
def create (options : Options) : System :=
  let tickRate : ℚ :=
    match options.tickRate with
    | some (.fin q) => if 0 < q then q else 60
    | _ => 60
  { tickRate := tickRate, tickDurationMs := 1000 / tickRate, lastNow := none }

/-- `getDeltaTime()` for one clock reading: first call returns the tick
duration; later calls return the elapsed time unless it is non-finite or
negative, in which case the tick duration again. -/
def getDeltaTime (ts : System) (current : JSNum) : JSNum × System :=
  match ts.lastNow with
  | none => (.fin ts.tickDurationMs, { ts with lastNow := some current })
  | some last =>
    let elapsed := jsSub current last
    let ts' := { ts with lastNow := some current }
    if ¬jsIsFinite elapsed ∨ jsLtZero elapsed then
      (.fin ts.tickDurationMs, ts')
    else (elapsed, ts')

/-- `GameEngine.#runTimePhase`: fatal on a non-finite or negative `dt`. -/
def runTimePhase (dt : JSNum) : Except String JSNum :=
  if ¬jsIsFinite dt ∨ jsLtZero dt then
    .error "TimeSystem.getDeltaTime() must return a finite, non-negative number"
  else .ok dt

/-- The `dt` values produced by successive `getDeltaTime` calls over a
stream of clock readings. -/
def dtsOf (ts : System) : List JSNum → List JSNum
  | [] => []
  | c :: rest =>
    let step := getDeltaTime ts c
    step.1 :: dtsOf step.2 rest

end TimeSystem

namespace LayerResetService

/-! ## `src/engine/systems/reset/LayerResetService.js`

`execute(input)` accepts a layer-id string or an `{layerId, reason}`
record; the embedding takes the two normalized fields directly.
`stateStore.snapshot()` deep-clones and freezes, which on pure values is
the value itself. -/

/-- This module's own `deepClone` (structural copy). -/
def deepClone : JValue → JValue
  | .null => .null
  | .bool b => .bool b
  | .num q => .num q
  | .str s => .str s
  | .arr items => .arr (items.attach.map (fun i => deepClone i.1))
  | .obj kvs => .obj (kvs.attach.map (fun kv => (kv.1.1, deepClone kv.1.2)))
termination_by v => sizeOf v
decreasing_by
  · have := List.sizeOf_lt_of_mem i.2; simp_wf; omega
  · have h1 := List.sizeOf_lt_of_mem kv.2
    have h2 : sizeOf kv.1.2 < sizeOf kv.1 := by
      obtain ⟨a, b⟩ := kv.1; simp
    simp_wf; omega

/-- `!current || typeof current !== 'object'` (a non-null object; array
index traversal is out of the model, see the header). -/
def isTraversable : JValue → Bool
  | .obj _ => true
  | _ => false

/-- `getPath(root, path)` over already-split parts: stops with `undefined`
on a falsy/non-object step or a missing key. -/
def getPathParts : JValue → List String → Option JValue
  | current, [] => some current
  | current, part :: rest =>
    if isTraversable current then
      match current.getProp part with
      | none => none
      | some next => getPathParts next rest
    else none

/-- `getPath(root, path)`. -/
def getPath (root : JValue) (path : String) : Option JValue :=
  getPathParts root (jsSplit path '.')

/-- `setPath(root, path, value)` over already-split parts: missing or
non-object intermediates are replaced by fresh objects, and the leaf is a
deep clone of the value. -/
def setPathParts : List (String × JValue) → List String → JValue →
    List (String × JValue)
  | kvs, [], _ => kvs
  | kvs, [last], v => JValue.objSet kvs last (deepClone v)
  | kvs, part :: p2 :: rest, v =>
    let nextKvs : List (String × JValue) :=
      match (JValue.obj kvs).getProp part with
      | some (.obj nkvs) => nkvs
      | _ => []
    JValue.objSet kvs part (.obj (setPathParts nextKvs (p2 :: rest) v))

/-- `setPath(root, path, value)`. -/
def setPath (root : List (String × JValue)) (path : String) (v : JValue) :
    List (String × JValue) :=
  setPathParts root (jsSplit path '.') v

/-- `reset` block of a layer definition (`keep` is `none` when absent or
not an array). -/
structure ResetRule where
  keep : Option (List JValue) := none

/-- One entry of `definition.layers`. -/
structure LayerDef where
  id : String
  reset : Option ResetRule := none

/-- The slice of the game definition the service reads. -/
structure GameDef where
  layers : List LayerDef := []
  state : List (String × JValue) := []

/-- `#getKeepPaths(layer)`: the sanitized in-order `reset.keep` strings. -/
def getKeepPaths (layer : LayerDef) : List String :=
  match layer.reset with
  | none => []
  | some r =>
    match r.keep with
    | none => []
    | some entries =>
      entries.filterMap (fun e =>
        match e with
        | .str s => if s = "" then none else some s
        | _ => none)

/-- `#findLayer(layerId)`. -/
def findLayer (d : GameDef) (layerId : String) : Except String LayerDef :=
  match d.layers.find? (fun l => l.id = layerId) with
  | some l => .ok l
  | none => .error "LayerResetService: unknown layer"

/-- `reason || 'reset-executed'` (a falsy reason falls back). -/
def defaultReason (reason : Option String) : String :=
  match reason with
  | some r => if r = "" then "reset-executed" else r
  | none => "reset-executed"

/-- What one `execute` call produces: the store with its canonical
namespace atomically replaced, the published `LAYER_RESET_EXECUTED`
event, and the keep paths it reported. -/
structure ExecuteOutcome where
  store : StateStore.Store
  published : EventBus.Event
  keepPaths : List String

/-- `execute({layerId, reason})`: snapshot, clone the definition state,
copy each defined keep-path value over it, swap it in, publish. -/
def execute (d : GameDef) (s : StateStore.Store) (layerId : String)
    (reason : Option String) : Except String ExecuteOutcome :=
  match findLayer d layerId with
  | .error e => .error e
  | .ok layer =>
    let keepPaths := getKeepPaths layer
    let currentCanonical : JValue := .obj s.canonicalState
    let baseCanonical : List (String × JValue) :=
      match deepClone (.obj d.state) with
      | .obj kvs => kvs
      | _ => []
    let withKeeps := keepPaths.foldl
      (fun acc kp =>
        match getPath currentCanonical kp with
        | some v => setPath acc kp v
        | none => acc) baseCanonical
    .ok { store := { s with canonicalState := withKeeps }
          published :=
            { type := "LAYER_RESET_EXECUTED"
              payload := .obj [("layerId", .str layerId),
                ("preservedKeys", .arr (keepPaths.map JValue.str)),
                ("reason", .str (defaultReason reason))] }
          keepPaths := keepPaths }

/-- Two dotted paths that neither contain one another (segment-wise). -/
def PathDisjoint (a b : String) : Prop :=
  ¬(jsSplit a '.' <+: jsSplit b '.') ∧ ¬(jsSplit b '.' <+: jsSplit a '.')

/-- The S6 definition: initial `resources = {xp:0, gold:0}`, layer `idle`
keeping `resources.gold`. -/
def s6Def : GameDef :=
  { layers := [{ id := "idle"
                 reset := some { keep := some [.str "resources.gold"] } }]
    state := [("resources", .obj [("xp", .num 0), ("gold", .num 0)])] }

/-- The S6 pre-reset store: `resources.xp = 150`, `resources.gold = 200`. -/
def s6Store : StateStore.Store :=
  { canonicalState := [("resources", .obj [("xp", .num 150), ("gold", .num 200)])]
    derivedState := [] }

/-- The outcome `execute(s6Def, s6Store, "idle")` computes. -/
def s6Outcome : ExecuteOutcome :=
  { store := { canonicalState :=
                 [("resources", .obj [("xp", .num 0), ("gold", .num 200)])]
               derivedState := [] }
    published :=
      { type := "LAYER_RESET_EXECUTED"
        payload := .obj [("layerId", .str "idle"),
          ("preservedKeys", .arr [.str "resources.gold"]),
          ("reason", .str "reset-executed")] }
    keepPaths := ["resources.gold"] }

end LayerResetService

namespace NodeRef

/-! ## `nodeRef.js` (`src/unnamed/part_006`)

`parse`/`format`/`normalize` for canonical
`layer:<id>[/sublayer:<id>[/section:<id>[/element:<id>]]]` strings.
The parsed record's `section` scope is named `sectionId` here (`section`
is a Lean keyword).  Error values carry the stable code strings; the
human-readable messages are elided. -/

/-- `NODE_REF_ORDER`. -/
def NODE_REF_ORDER : List String := ["layer", "sublayer", "section", "element"]

/-- `isNonEmptyString(value)` (the `typeof` check is intrinsic). -/
def isNonEmptyString (s : String) : Bool := !(trimChars s.toList).isEmpty

/-- The parse result: up to four scope ids, gap-freeness enforced by the
parser. -/
structure ParsedRef where
  layer : String
  sublayer : Option String := none
  sectionId : Option String := none
  element : Option String := none
  deriving DecidableEq, Repr

/-- The record under construction during the parse loop. -/
structure PartialRef where
  layer : Option String := none
  sublayer : Option String := none
  sectionId : Option String := none
  element : Option String := none
  deriving Repr

/-- `parsed[scope]` (truthiness coincides with presence: stored ids are
never empty). -/
def getScope (acc : PartialRef) (scope : String) : Option String :=
  if scope = "layer" then acc.layer
  else if scope = "sublayer" then acc.sublayer
  else if scope = "section" then acc.sectionId
  else if scope = "element" then acc.element
  else none

/-- `parsed[scope] = id`. -/
def setScope (acc : PartialRef) (scope : String) (id : String) : PartialRef :=
  if scope = "layer" then { acc with layer := some id }
  else if scope = "sublayer" then { acc with sublayer := some id }
  else if scope = "section" then { acc with sectionId := some id }
  else if scope = "element" then { acc with element := some id }
  else acc

/-- `part.indexOf(':')` (`none` models `-1`). -/
def colonIndex : List Char → Option Nat
  | [] => none
  | c :: rest =>
    if c = ':' then some 0 else (colonIndex rest).map (· + 1)

/-- `NODE_REF_ORDER.indexOf(scope)` with JS `-1` for a miss. -/
def jsIndexOf : List String → String → Int
  | [], _ => -1
  | y :: rest, x =>
    if y = x then 0
    else
      let r := jsIndexOf rest x
      if r = -1 then -1 else r + 1

/-- The per-part work of the parse loop: empty-segment check, colon
position checks, scope/id extraction with trimming, id non-emptiness. -/
def parsePart (part : List Char) : Except String (String × String) :=
  if part.isEmpty then .error "NODE_REF_SEGMENT_EMPTY"
  else
    match colonIndex part with
    | none => .error "NODE_REF_FORMAT"
    | some i =>
      if i = 0 then .error "NODE_REF_FORMAT"
      else if i = part.length - 1 then .error "NODE_REF_FORMAT"
      else
        let scope := String.mk (trimChars (part.take i))
        let id := String.mk (trimChars (part.drop (i + 1)))
        if id.toList.isEmpty then .error "NODE_REF_ID_EMPTY"
        else .ok (scope, id)

/-- The scope-ordering loop of `parseNodeRef`: unknown scope, duplicate
scope, and out-of-order (gap) checks, in source order. -/
def parseLoop : List (List Char) → PartialRef → Int → Except String PartialRef
  | [], acc, _ => .ok acc
  | part :: rest, acc, lastScopeIndex =>
    match parsePart part with
    | .error e => .error e
    | .ok (scope, id) =>
      let scopeIdx := jsIndexOf NODE_REF_ORDER scope
      if scopeIdx = -1 then .error "NODE_REF_SCOPE_INVALID"
      else if (getScope acc scope).isSome then .error "NODE_REF_SCOPE_DUPLICATE"
      else if scopeIdx ≠ lastScopeIndex + 1 then .error "NODE_REF_SCOPE_ORDER"
      else parseLoop rest (setScope acc scope id) scopeIdx

/-- `parseNodeRef(ref)`. -/
def parseNodeRef (ref : String) : Except String ParsedRef :=
  if ¬isNonEmptyString ref then .error "NODE_REF_EMPTY"
  else
    let parts := (splitChar '/' ref.toList).map trimChars
    match parseLoop parts {} (-1) with
    | .error e => .error e
    | .ok acc =>
      match acc.layer with
      | none => .error "NODE_REF_LAYER_REQUIRED"
      | some l =>
        .ok { layer := l, sublayer := acc.sublayer
              sectionId := acc.sectionId, element := acc.element }

/-- `segments.join('/')` at the character level. -/
def joinSlash : List (List Char) → List Char
  | [] => []
  | [s] => s
  | s :: s2 :: rest => s ++ '/' :: joinSlash (s2 :: rest)

/-- The segment list `formatNodeRef` builds (`if (nodeRef.X)` truthiness:
an absent or empty id is skipped). -/
def formatSegments (r : ParsedRef) : List (List Char) :=
  ["layer".toList ++ ':' :: r.layer.toList]
  ++ (match r.sublayer with
      | some s => if s = "" then [] else ["sublayer".toList ++ ':' :: s.toList]
      | none => [])
  ++ (match r.sectionId with
      | some s => if s = "" then [] else ["section".toList ++ ':' :: s.toList]
      | none => [])
  ++ (match r.element with
      | some s => if s = "" then [] else ["element".toList ++ ':' :: s.toList]
      | none => [])

/-- `formatNodeRef(nodeRef)`. -/
def formatNodeRef (r : ParsedRef) : String :=
  String.mk (joinSlash (formatSegments r))

/-- `normalizeNodeRef(ref)`: parse, then format. -/
def normalizeNodeRef (ref : String) : Except String String :=
  match parseNodeRef ref with
  | .error e => .error e
  | .ok p => .ok (formatNodeRef p)

/-- A list made of JS whitespace only. -/
def AllWs (l : List Char) : Prop := ∀ c ∈ l, isJsWhitespace c = true

/-- A valid scope id: non-empty, no `/` (the segment separator), and no
whitespace at either end (trimming must not alter it). -/
def validId (l : List Char) : Bool :=
  match l with
  | [] => false
  | c :: cs =>
    !isJsWhitespace c && !isJsWhitespace ((c :: cs).getLastD 'x')
      && !(c :: cs).contains '/'

/-- Well-formedness of a parsed reference: a valid canonical string is
`formatNodeRef` of exactly these records (scopes gap-free, ids valid). -/
def WellFormedRef (r : ParsedRef) : Prop :=
  validId r.layer.toList = true
  ∧ (∀ s, r.sublayer = some s → validId s.toList = true)
  ∧ (∀ s, r.sectionId = some s → validId s.toList = true)
  ∧ (∀ s, r.element = some s → validId s.toList = true)
  ∧ (r.sectionId.isSome → r.sublayer.isSome)
  ∧ (r.element.isSome → r.sectionId.isSome)

/-- Whitespace inserted around one segment: before the scope, before the
colon, before the id, after the id. -/
structure SegWs where
  a : List Char := []
  b : List Char := []
  c : List Char := []
  d : List Char := []

/-- Every whitespace slot of a `SegWs` is whitespace. -/
def SegWs.Ws (w : SegWs) : Prop := AllWs w.a ∧ AllWs w.b ∧ AllWs w.c ∧ AllWs w.d

/-- One whitespace-decorated segment `ws scope ws : ws id ws`. -/
def wsSeg (scope id : List Char) (w : SegWs) : List Char :=
  w.a ++ scope ++ w.b ++ ':' :: (w.c ++ id ++ w.d)

/-- The whitespace variant of `formatNodeRef r` with per-segment slots. -/
def wsVariantSegments (r : ParsedRef) (w1 w2 w3 w4 : SegWs) :
    List (List Char) :=
  [wsSeg "layer".toList r.layer.toList w1]
  ++ (match r.sublayer with
      | some s => [wsSeg "sublayer".toList s.toList w2]
      | none => [])
  ++ (match r.sectionId with
      | some s => [wsSeg "section".toList s.toList w3]
      | none => [])
  ++ (match r.element with
      | some s => [wsSeg "element".toList s.toList w4]
      | none => [])

/-- The whitespace-variant string itself. -/
def wsVariant (r : ParsedRef) (w1 w2 w3 w4 : SegWs) : String :=
  String.mk (joinSlash (wsVariantSegments r w1 w2 w3 w4))

end NodeRef

/-! # Theorems -/

namespace UnlockCondition

theorem numberEpsilon_pos : (0 : ℚ) < numberEpsilon := by
  norm_num [numberEpsilon]

/-- **C2.** Strict threshold progress at the boundary: whenever the read
value equals the target, progress of a strict compare (`gt`/`lt`) is
`min(computed, 1 − ε)`, strictly below `1`, while `not(gt)` / `not(lt)`
over the same child reports exactly `1`. -/
theorem strict_threshold_boundary (path : String) (state : JValue) (q : ℚ)
    (h : readPath state path = some (.num q)) :
    (evaluateUnlockProgress (.compare path .gt q) state = min 1 (1 - numberEpsilon)
      ∧ evaluateUnlockProgress (.compare path .gt q) state < 1
      ∧ evaluateUnlockProgress (.not (.compare path .gt q)) state = 1)
    ∧ (evaluateUnlockProgress (.compare path .lt q) state = min 1 (1 - numberEpsilon)
      ∧ evaluateUnlockProgress (.compare path .lt q) state < 1
      ∧ evaluateUnlockProgress (.not (.compare path .lt q)) state = 1) := by
  have hb : (readPath state path).bind asNumber = some q := by rw [h]; rfl
  have hmin : min (1 : ℚ) (1 - numberEpsilon) = 1 - numberEpsilon := by
    have := numberEpsilon_pos
    exact min_eq_right (by linarith)
  have hlt : (1 : ℚ) - numberEpsilon < 1 := by
    have := numberEpsilon_pos; linarith
  have hgtProg : evaluateUnlockProgress (.compare path .gt q) state
      = min 1 (1 - numberEpsilon) := by
    simp [evaluateUnlockProgress, hb, estimateThresholdProgress]
  have hltProg : evaluateUnlockProgress (.compare path .lt q) state
      = min 1 (1 - numberEpsilon) := by
    simp [evaluateUnlockProgress, hb, estimateThresholdProgress]
  have hgtCond : evaluateUnlockCondition (.compare path .gt q) state = false := by
    simp [evaluateUnlockCondition, hb]
  have hltCond : evaluateUnlockCondition (.compare path .lt q) state = false := by
    simp [evaluateUnlockCondition, hb]
  have hnotGt : evaluateUnlockProgress (.not (.compare path .gt q)) state = 1 := by
    rw [evaluateUnlockProgress]
    simp [evaluateUnlockCondition, hgtCond]
  have hnotLt : evaluateUnlockProgress (.not (.compare path .lt q)) state = 1 := by
    rw [evaluateUnlockProgress]
    simp [evaluateUnlockCondition, hltCond]
  refine ⟨⟨hgtProg, ?_, hnotGt⟩, ⟨hltProg, ?_, hnotLt⟩⟩
  · rw [hgtProg, hmin]; exact hlt
  · rw [hltProg, hmin]; exact hlt

/-- Witness for C2 at `resources.xp = 50`, target `50`. -/
theorem strict_threshold_boundary_witness :
    readPath (.obj [("resources", .obj [("xp", .num 50)])]) "resources.xp"
        = some (.num 50)
    ∧ evaluateUnlockProgress (.compare "resources.xp" .gt 50)
        (.obj [("resources", .obj [("xp", .num 50)])]) < 1
    ∧ evaluateUnlockProgress (.not (.compare "resources.xp" .gt 50))
        (.obj [("resources", .obj [("xp", .num 50)])]) = 1 :=
  ⟨rfl,
    (strict_threshold_boundary "resources.xp"
      (.obj [("resources", .obj [("xp", .num 50)])]) 50 rfl).1.2.1,
    (strict_threshold_boundary "resources.xp"
      (.obj [("resources", .obj [("xp", .num 50)])]) 50 rfl).1.2.2⟩

/-- **C9.** Silent-degradation totality of unlock evaluation: every
state-reading leaf evaluates to `false` when its path is missing or its
value has the wrong type, and `evaluateUnlockCondition` is a total
`Bool`-valued function on every parsed AST (it is defined for every
constructor; the final conjunct records the Boolean dichotomy). -/
theorem unlock_eval_silent_degradation (state : JValue) (path : String)
    (op : CmpOp) (target : ℚ) :
    ((readPath state path = none
        ∨ ∃ j, readPath state path = some j ∧ asNumber j = none) →
      evaluateUnlockCondition (.resourceGte path target) state = false
      ∧ evaluateUnlockCondition (.compare path op target) state = false)
    ∧ ((readPath state path = none
        ∨ ∃ j, readPath state path = some j ∧ j ≠ .bool true) →
      evaluateUnlockCondition (.flag path) state = false)
    ∧ (∀ ast : Ast, evaluateUnlockCondition ast state = true
        ∨ evaluateUnlockCondition ast state = false) := by
  refine ⟨?_, ?_, fun ast => (Bool.dichotomy _).symm⟩
  · intro h
    have hb : (readPath state path).bind asNumber = none := by
      rcases h with h | ⟨j, hj, hnum⟩
      · rw [h]; rfl
      · rw [hj]; simpa using hnum
    constructor
    · simp [evaluateUnlockCondition, hb]
    · simp [evaluateUnlockCondition, hb]
  · rintro (h | ⟨j, hj, hne⟩)
    · simp [evaluateUnlockCondition, h]
    · rw [evaluateUnlockCondition, hj]
      cases j with
      | bool b => cases b with
        | true => exact absurd rfl hne
        | false => rfl
      | null => rfl
      | num _ => rfl
      | str _ => rfl
      | arr _ => rfl
      | obj _ => rfl

/-- Witness for C9: a missing path and a number-valued flag path. -/
theorem unlock_eval_silent_degradation_witness :
    evaluateUnlockCondition (.resourceGte "flags.x" 1) (.obj []) = false
    ∧ evaluateUnlockCondition (.flag "flags.x")
        (.obj [("flags", .obj [("x", .num 3)])]) = false :=
  ⟨(unlock_eval_silent_degradation (.obj []) "flags.x" .gt 1).1
      (Or.inl rfl) |>.1,
    (unlock_eval_silent_degradation (.obj [("flags", .obj [("x", .num 3)])])
      "flags.x" .gt 1).2.1 (Or.inr ⟨.num 3, rfl, by intro h; cases h⟩)⟩

end UnlockCondition

namespace UnlockEvaluator

open UnlockCondition

theorem transition_endOfTick (w : Bool) (ast : Ast) (st : JValue) :
    evaluateUnlockTransition w ast st "end-of-tick" =
      .ok (if w then ⟨true, false⟩ else
        ⟨evaluateUnlockCondition ast st, evaluateUnlockCondition ast st⟩) := by
  cases w <;> rfl

/-- The end-of-tick loop never throws. -/
theorem evaluateAllGo_ok (st : JValue) :
    ∀ (ts : List Target) (u : String → Bool) (s : EvalSummary)
      (pubs : List EventBus.Event),
      ∃ out, evaluateAllGo st "end-of-tick" ts u s pubs = .ok out
  | [], u, s, pubs => ⟨(u, s, pubs), rfl⟩
  | t :: rest, u, s, pubs => by
    rw [evaluateAllGo, transition_endOfTick]
    exact evaluateAllGo_ok st rest _ _ _

/-- One end-of-tick pass never turns an unlocked reference off. -/
theorem evaluateAllGo_mono (st : JValue) (R : String) :
    ∀ (ts : List Target) (u : String → Bool) (s : EvalSummary)
      (pubs : List EventBus.Event) u' s' p',
      evaluateAllGo st "end-of-tick" ts u s pubs = .ok (u', s', p') →
      u R = true → u' R = true
  | [], u, s, pubs, u', s', p', h, hu => by
    rw [evaluateAllGo] at h
    cases h
    exact hu
  | t :: rest, u, s, pubs, u', s', p', h, hu => by
    rw [evaluateAllGo, transition_endOfTick] at h
    refine evaluateAllGo_mono st R rest _ _ _ u' s' p' h ?_
    by_cases hr : R = t.ref
    · subst hr
      simp [hu]
    · simpa [hr] using hu

/-- An already-unlocked reference is never recorded as a transition and
never published as `UNLOCKED` by a later pass of the loop. -/
theorem evaluateAllGo_retention (st : JValue) (R : String) :
    ∀ (ts : List Target) (u : String → Bool) (s : EvalSummary)
      (pubs : List EventBus.Event) u' s' p',
      evaluateAllGo st "end-of-tick" ts u s pubs = .ok (u', s', p') →
      u R = true →
      R ∉ s.transitions →
      (∀ e ∈ pubs, e.payload.getProp "targetRef" ≠ some (.str R)) →
      R ∉ s'.transitions
      ∧ ∀ e ∈ p', e.payload.getProp "targetRef" ≠ some (.str R)
  | [], u, s, pubs, u', s', p', h, hu, hs, hp => by
    rw [evaluateAllGo] at h
    cases h
    exact ⟨hs, hp⟩
  | t :: rest, u, s, pubs, u', s', p', h, hu, hs, hp => by
    rw [evaluateAllGo, transition_endOfTick] at h
    cases hut : u t.ref with
    | true =>
      rw [hut] at h
      simp only [if_true] at h
      refine evaluateAllGo_retention st R rest _ _ _ u' s' p' h ?_
        (by simpa using hs) (by simpa using hp)
      by_cases hr : R = t.ref <;> simp [hr, hu]
    | false =>
      have hr : R ≠ t.ref := by
        intro hEq
        rw [hEq, hut] at hu
        exact Bool.noConfusion hu
      rw [hut] at h
      simp only [Bool.false_eq_true, if_false] at h
      refine evaluateAllGo_retention st R rest _ _ _ u' s' p' h
        (by simp [hr, hu]) ?_ ?_
      · intro hmem
        rcases List.mem_append.mp hmem with hmem | hmem
        · exact hs hmem
        · revert hmem
          split
          · intro hmem
            exact hr (List.mem_singleton.mp hmem)
          · simp
      · intro e he
        rcases List.mem_append.mp he with he | he
        · exact hp e he
        · revert he
          split
          · intro he
            rcases List.mem_singleton.mp he with rfl
            simp only [unlockedEvent, JValue.getProp, List.find?]
            simp
            intro hcontr
            exact hr hcontr.symm
          · simp

theorem stepUnlocked_mono (targets : List Target) (st : JValue)
    (u : String → Bool) (R : String) (hu : u R = true) :
    stepUnlocked targets st u R = true := by
  obtain ⟨⟨u', s', p'⟩, h⟩ := evaluateAllGo_ok st targets u ⟨[], [], []⟩ []
  have hall : evaluateAll targets u st (some "end-of-tick")
      = .ok (u', s', p') := h
  rw [stepUnlocked, hall]
  exact evaluateAllGo_mono st R targets u _ _ u' s' p' h hu

theorem foldl_stepUnlocked_mono (targets : List Target) (R : String) :
    ∀ (l : List JValue) (u : String → Bool), u R = true →
      (l.foldl (fun acc st => stepUnlocked targets st acc) u) R = true
  | [], _, hu => hu
  | st :: rest, u, hu =>
    foldl_stepUnlocked_mono targets R rest _ (stepUnlocked_mono targets st u R hu)

/-- **C1.** Unlock monotonicity: across any two end-of-tick `evaluateAll`
calls of a session, a reference unlocked after the earlier call is still
unlocked after the later one; within a call, an already-unlocked reference
is retained as `true`, recorded in no transition, published in no
`UNLOCKED` event; and for an already-unlocked target the transition result
is a constant independent of the condition AST and the state (the AST is
not re-evaluated). -/
theorem unlock_monotonicity (targets : List Target) (u : String → Bool)
    (states : List JValue) (R : String) :
    (∀ i j, i ≤ j → unlockedAfter targets u states i R = true →
        unlockedAfter targets u states j R = true)
    ∧ (∀ st u' s' p', u R = true →
        evaluateAll targets u st (some "end-of-tick") = .ok (u', s', p') →
        u' R = true ∧ R ∉ s'.transitions
          ∧ ∀ e ∈ p', e.payload.getProp "targetRef" ≠ some (.str R))
    ∧ (∀ (ast : Ast) (st₁ st₂ : JValue),
        evaluateUnlockTransition true ast st₁ "end-of-tick" = .ok ⟨true, false⟩
        ∧ evaluateUnlockTransition true ast st₁ "end-of-tick"
            = evaluateUnlockTransition true ast st₂ "end-of-tick") := by
  refine ⟨?_, ?_, fun ast st₁ st₂ => ⟨rfl, rfl⟩⟩
  · intro i j hij h
    rw [unlockedAfter] at h ⊢
    have hsplit : states.take j
        = states.take i ++ (states.take j).drop i := by
      conv_lhs => rw [← List.take_append_drop i (states.take j)]
      rw [List.take_take, Nat.min_eq_left hij]
    rw [hsplit, List.foldl_append]
    exact foldl_stepUnlocked_mono targets R _ _ h
  · intro st u' s' p' hu h
    have hgo : evaluateAllGo st "end-of-tick" targets u ⟨[], [], []⟩ []
        = .ok (u', s', p') := h
    refine ⟨evaluateAllGo_mono st R targets u _ _ u' s' p' hgo hu, ?_, ?_⟩
    · exact (evaluateAllGo_retention st R targets u _ _ u' s' p' hgo hu
        (by simp) (by simp)).1
    · exact (evaluateAllGo_retention st R targets u _ _ u' s' p' hgo hu
        (by simp) (by simp)).2

/-- Witness for C1: one always-locked target already marked unlocked stays
unlocked across a call, and a retained target's transition result is the
constant `{unlocked:true, transitioned:false}`. -/
theorem unlock_monotonicity_witness :
    (0 : ℕ) ≤ 1
    ∧ unlockedAfter [⟨"a", .always false⟩] (fun _ => true) [.obj []] 0 "a" = true
    ∧ unlockedAfter [⟨"a", .always false⟩] (fun _ => true) [.obj []] 1 "a" = true
    ∧ evaluateUnlockTransition true (.always false) (.obj []) "end-of-tick"
        = .ok ⟨true, false⟩ :=
  ⟨Nat.zero_le 1, rfl,
    (unlock_monotonicity [⟨"a", .always false⟩] (fun _ => true) [.obj []] "a").1
      0 1 (Nat.zero_le 1) rfl,
    ((unlock_monotonicity [⟨"a", .always false⟩] (fun _ => true) [.obj []] "a").2.2
      (.always false) (.obj []) (.obj [])).1⟩

end UnlockEvaluator

namespace EventBus

theorem filter_token_map (l : List Subscriber) (e : Event) (t : Nat) :
    ((l.map (fun s => Delivery.mk s.token e)).filter (fun d => d.token = t))
      = List.replicate (l.countP (fun s => s.token = t)) (Delivery.mk t e) := by
  induction l with
  | nil => rfl
  | cons s rest ih =>
    by_cases hs : s.token = t
    · simp [List.countP_cons, hs, ih, List.replicate_succ]
    · simp [List.countP_cons, hs, ih]

theorem runEvents_spec (subs : List (String × List Subscriber)) (maxE : Nat) :
    ∀ (es : List Event) (n : Nat) ds pubs n',
      runEvents subs maxE es n = .ok (ds, pubs, n') →
      ds = cycleDeliveries subs es ∧ pubs = cyclePublished subs es
        ∧ n' = n + es.length
  | [], n, ds, pubs, n', h => by
    rw [runEvents] at h
    cases h
    exact ⟨rfl, rfl, rfl⟩
  | e :: rest, n, ds, pubs, n', h => by
    rw [runEvents] at h
    split at h
    · exact absurd h (by simp)
    · cases hrec : runEvents subs maxE rest (n + 1) with
      | error err => rw [hrec] at h; exact absurd h (by simp)
      | ok out =>
        obtain ⟨ds', pubs', p''⟩ := out
        rw [hrec] at h
        cases h
        obtain ⟨h1, h2, h3⟩ := runEvents_spec subs maxE rest (n + 1) _ _ _ hrec
        refine ⟨?_, ?_, ?_⟩
        · simp [cycleDeliveries, h1]
        · simp [cyclePublished, h2]
        · simp [h3]; omega

theorem dispatchGo_spec (subs : List (String × List Subscriber)) (maxE : Nat) :
    ∀ (fuel : Nat) (queue : List Event) (n : Nat) trace cycles n' deferred,
      dispatchGo subs maxE fuel queue n = .ok (trace, cycles, n', deferred) →
      trace = (((busCycles subs fuel queue).1).map (cycleDeliveries subs)).flatten
      ∧ deferred = (busCycles subs fuel queue).2
      ∧ cycles = ((busCycles subs fuel queue).1).length
  | 0, queue, n, trace, cycles, n', deferred, h => by
    rw [dispatchGo] at h
    cases h
    exact ⟨rfl, rfl, rfl⟩
  | fuel + 1, [], n, trace, cycles, n', deferred, h => by
    rw [dispatchGo] at h
    cases h
    exact ⟨rfl, rfl, rfl⟩
  | fuel + 1, e :: rest, n, trace, cycles, n', deferred, h => by
    rw [dispatchGo] at h
    cases hre : runEvents subs maxE (e :: rest) n with
    | error err => rw [hre] at h; exact absurd h (by simp)
    | ok out1 =>
      obtain ⟨ds, pubs, p'⟩ := out1
      rw [hre] at h
      dsimp only at h
      cases hgo : dispatchGo subs maxE fuel pubs p' with
      | error err => rw [hgo] at h; exact absurd h (by simp)
      | ok out2 =>
        obtain ⟨ds', c, p'', deferred'⟩ := out2
        rw [hgo] at h
        cases h
        obtain ⟨hds, hpubs, _⟩ := runEvents_spec subs maxE (e :: rest) n _ _ _ hre
        obtain ⟨h1, h2, h3⟩ :=
          dispatchGo_spec subs maxE fuel pubs p' _ _ _ _ hgo
        subst hpubs
        refine ⟨?_, ?_, ?_⟩
        · simp [busCycles, hds, h1]
        · simpa [busCycles] using h2
        · simp [busCycles, h3]

theorem busCycles_head (subs : List (String × List Subscriber))
    (fuel : Nat) (q : List Event) (es : List Event)
    (h : ((busCycles subs fuel q).1)[0]? = some es) : es = q := by
  match fuel, q with
  | 0, q => simp [busCycles] at h
  | fuel + 1, [] => simp [busCycles] at h
  | fuel + 1, e :: rest =>
    rw [busCycles] at h
    simp at h
    exact h.symm

theorem busCycles_chain (subs : List (String × List Subscriber)) :
    ∀ (fuel : Nat) (q : List Event) (i : Nat) es es',
      ((busCycles subs fuel q).1)[i]? = some es →
      ((busCycles subs fuel q).1)[i + 1]? = some es' →
      es' = cyclePublished subs es
  | 0, q, i, es, es', h1, h2 => by simp [busCycles] at h1
  | fuel + 1, [], i, es, es', h1, h2 => by simp [busCycles] at h1
  | fuel + 1, e :: rest, 0, es, es', h1, h2 => by
    rw [busCycles] at h1 h2
    simp at h1 h2
    subst h1
    exact busCycles_head subs fuel _ es' h2
  | fuel + 1, e :: rest, i + 1, es, es', h1, h2 => by
    rw [busCycles] at h1 h2
    simp at h1 h2
    exact busCycles_chain subs fuel _ i es es' h1 h2

theorem cycleDeliveries_filter_token (subs : List (String × List Subscriber))
    (t : Nat) (ty : String)
    (h1 : (subsFor subs ty).countP (fun s => s.token = t) = 1)
    (h0 : ∀ ty', ty' ≠ ty →
      (subsFor subs ty').countP (fun s => s.token = t) = 0) :
    ∀ es : List Event,
      (cycleDeliveries subs es).filter (fun d => d.token = t)
        = (es.filter (fun e => e.type = ty)).map (fun e => Delivery.mk t e)
  | [] => rfl
  | e :: rest => by
    have ih := cycleDeliveries_filter_token subs t ty h1 h0 rest
    by_cases he : e.type = ty
    · simp only [cycleDeliveries, List.map_cons, List.flatten_cons,
        List.filter_append, List.filter_cons, filter_token_map, he, h1]
      simp [he, ← ih, cycleDeliveries]
    · simp only [cycleDeliveries, List.map_cons, List.flatten_cons,
        List.filter_append, List.filter_cons, filter_token_map, h0 e.type he]
      simp [he, ← ih, cycleDeliveries]

/-- **C3.** FIFO dispatch with re-publish deferral: `dispatchQueued`
decomposes into cycles; the first executed cycle processes exactly the
pre-call queue (the published events, in publish order); each later cycle
processes exactly the events published by handlers during the previous
cycle, so every re-published event is delivered strictly after the whole
cycle in which it was published (the trace is the concatenation of the
cycle blocks in order); and within a cycle the deliveries to one subscriber
are its subscribed-type events in queue order. -/
theorem event_bus_fifo_dispatch (bus : Bus) (trace : List Delivery)
    (report : DispatchReport) (bus' : Bus)
    (h : bus.dispatchQueued = .ok (trace, report, bus')) :
    (trace = (((busCycles bus.subscribers bus.maxDispatchCyclesPerTick
        bus.queue).1).map (cycleDeliveries bus.subscribers)).flatten)
    ∧ (∀ e q, bus.queue = e :: q → 0 < bus.maxDispatchCyclesPerTick →
        ((busCycles bus.subscribers bus.maxDispatchCyclesPerTick
          bus.queue).1)[0]? = some bus.queue)
    ∧ (∀ i es es',
        ((busCycles bus.subscribers bus.maxDispatchCyclesPerTick
          bus.queue).1)[i]? = some es →
        ((busCycles bus.subscribers bus.maxDispatchCyclesPerTick
          bus.queue).1)[i + 1]? = some es' →
        es' = cyclePublished bus.subscribers es)
    ∧ (∀ (t : Nat) (ty : String) (es : List Event),
        (subsFor bus.subscribers ty).countP (fun s => s.token = t) = 1 →
        (∀ ty', ty' ≠ ty →
          (subsFor bus.subscribers ty').countP (fun s => s.token = t) = 0) →
        (cycleDeliveries bus.subscribers es).filter (fun d => d.token = t)
          = (es.filter (fun e => e.type = ty)).map (fun e => Delivery.mk t e)) := by
  rw [Bus.dispatchQueued] at h
  cases hgo : dispatchGo bus.subscribers bus.maxEventsPerTick
      bus.maxDispatchCyclesPerTick bus.queue 0 with
  | error err => rw [hgo] at h; exact absurd h (by simp)
  | ok out =>
    obtain ⟨tr, c, p, deferred⟩ := out
    rw [hgo] at h
    cases h
    obtain ⟨h1, _, _⟩ := dispatchGo_spec bus.subscribers bus.maxEventsPerTick
      bus.maxDispatchCyclesPerTick bus.queue 0 _ _ _ _ hgo
    refine ⟨h1, ?_, busCycles_chain bus.subscribers _ _,
      fun t ty es ha hb => cycleDeliveries_filter_token bus.subscribers t ty ha hb es⟩
    intro e q hq hpos
    rw [hq]
    cases hmc : bus.maxDispatchCyclesPerTick with
    | zero => rw [hmc] at hpos; exact absurd hpos (by omega)
    | succ fuel => rw [busCycles]; simp

/-- Witness for C3 on the cascade fixture: the re-published `"B"` event is
delivered in the second cycle block, after the whole first cycle, and the
token-1 subscriber receives exactly the `"A"` events of the queue in
order. -/
theorem event_bus_fifo_dispatch_witness :
    sampleDispatchTrace
      = (((busCycles sampleBus.subscribers sampleBus.maxDispatchCyclesPerTick
          sampleBus.queue).1).map (cycleDeliveries sampleBus.subscribers)).flatten
    ∧ (cycleDeliveries sampleBus.subscribers sampleBus.queue).filter
          (fun d => d.token = 1)
        = (sampleBus.queue.filter (fun e => e.type = "A")).map
            (fun e => Delivery.mk 1 e) := by
  have happ := event_bus_fifo_dispatch sampleBus sampleDispatchTrace
    sampleDispatchReport { sampleBus with queue := [] } rfl
  refine ⟨happ.1, happ.2.2.2 1 "A" sampleBus.queue rfl ?_⟩
  intro ty' hne
  by_cases hb : ty' = "B"
  · subst hb; rfl
  · have hnone : subsFor sampleBus.subscribers ty' = [] := by
      simp [sampleBus, subsFor, List.find?, Ne.symm hne, Ne.symm hb]
    rw [hnone]
    rfl

end EventBus

namespace StateStore

/-- **C4.** Canonical/derived isolation with atomicity: `set` and `patch`
on `"derived"` or any `derived.`-prefixed path fail with the canonical
policy error, and the store a catching caller observes is the unchanged
one (the assertion throws before any write). -/
theorem canonical_derived_isolation (s : Store) (path : String)
    (v partial' : JValue)
    (h : path = "derived" ∨ jsStartsWith path "derived." = true) :
    s.setCaught path v
      = (s, some "StateStore canonical policy violation: set/patch cannot write into derived state namespace.")
    ∧ s.patchCaught path partial'
      = (s, some "StateStore canonical policy violation: set/patch cannot write into derived state namespace.") := by
  have ha : assertCanonicalWritePath path
      = .error "StateStore canonical policy violation: set/patch cannot write into derived state namespace." := by
    rw [assertCanonicalWritePath, if_pos]
    rcases h with h | h
    · exact Or.inl h
    · exact Or.inr h
  constructor
  · simp [Store.setCaught, Store.set, ha]
  · simp [Store.patchCaught, Store.patch, ha]

/-- Witness for C4 at `path = "derived.unlocks"` on a small store. -/
theorem canonical_derived_isolation_witness :
    (Store.setCaught ⟨[("resources", .obj [])], []⟩ "derived.unlocks" (.num 1)).2.isSome
    ∧ (Store.setCaught ⟨[("resources", .obj [])], []⟩ "derived.unlocks" (.num 1)).1.canonicalState
        = [("resources", .obj [])]
    ∧ (Store.patchCaught ⟨[("resources", .obj [])], []⟩ "derived.unlocks" (.obj [])).1.derivedState
        = [] := by
  have happ := canonical_derived_isolation ⟨[("resources", .obj [])], []⟩
    "derived.unlocks" (.num 1) (.obj []) (Or.inr rfl)
  refine ⟨?_, ?_, ?_⟩
  · rw [happ.1]; rfl
  · rw [happ.1]
  · rw [happ.2]

end StateStore

namespace IntentRouter

/-- **C7 (counterexample).** `register` on a type that already has a
handler does not fail: it silently replaces the handler (last-writer), and
a subsequent route dispatches the second handler. -/
theorem intent_register_last_writer_counterexample :
    emptyRouter.register "START_JOB" handlerA = .ok routerA
    ∧ routerA.register "START_JOB" handlerB = .ok routerAB
    ∧ routerAB.route startJobIntent
        = .ok { ok := true, code := "INTENT_ROUTED"
                routingTarget := some "progressLayer"
                result := some (.str "h2") }
    ∧ JValue.str "h2" ≠ JValue.str "h1" := by
  refine ⟨rfl, rfl, rfl, ?_⟩
  intro hcontr
  injection hcontr with h'
  exact absurd h' (by decide)

/-- **C7 (amended).** Duplicate registration succeeds and follows the
last-writer policy: after registering `h1` then `h2` for the same type,
the stored handler is `h2` (the source performs `Map.set` with no
duplicate check; only an empty type or non-function handler fails). -/
theorem intent_register_last_writer (r r1 r2 : Router) (T : String)
    (h1 h2 : Handler)
    (hreg1 : r.register T h1 = .ok r1) (hreg2 : r1.register T h2 = .ok r2) :
    r1.handlers T = some h1 ∧ r2.handlers T = some h2 := by
  rw [Router.register] at hreg1 hreg2
  by_cases hT : T = ""
  · rw [if_pos hT] at hreg1
    exact absurd hreg1 (by simp)
  · rw [if_neg hT] at hreg1 hreg2
    cases hreg1
    cases hreg2
    constructor <;> simp

/-- Witness for the amended C7 on the concrete router chain. -/
theorem intent_register_last_writer_witness :
    routerA.handlers "START_JOB" = some handlerA
    ∧ routerAB.handlers "START_JOB" = some handlerB :=
  intent_register_last_writer emptyRouter routerA routerAB "START_JOB"
    handlerA handlerB rfl rfl

/-- **C5 (counterexample).** With the wiring `createRuntimeSystems`
actually performs (no `isNodeLocked` option supplied, as in the engine's
`initialize`), the router's predicate is the constant `false`, and routing
the S5 `START_JOB` intent at a still-locked target before any unlock
returns `INTENT_HANDLER_MISSING`, not `INTENT_TARGET_LOCKED`. -/
theorem intent_lock_wiring_counterexample :
    defaultWiredRouter.isNodeLocked
        (.str "layer:idle/sublayer:main/section:jobs") = false
    ∧ defaultWiredRouter.route startJobIntent
        = .ok { ok := false, code := "INTENT_HANDLER_MISSING"
                reason := some "No handler registered for intent"
                routingTarget := some "progressLayer" }
    ∧ ("INTENT_HANDLER_MISSING" : String) ≠ "INTENT_TARGET_LOCKED" :=
  ⟨rfl, rfl, by decide⟩

/-- **C5 (amended).** The engine wires the router with the host-supplied
`isNodeLocked` or a default constant-false predicate (nothing derived from
the unlock summary in derived state): under the default wiring no route
ever returns `INTENT_TARGET_LOCKED`; the rejection arises exactly when a
supplied predicate reports a truthy `payload.targetRef` locked. -/
theorem intent_lock_wiring_amended :
    (∀ (r : Router) (intent : Intent) (res : RouteResult),
      r.isNodeLocked = (fun _ => false) →
      r.route intent = .ok res → res.code ≠ "INTENT_TARGET_LOCKED")
    ∧ (∀ options : RuntimeOptions, options.isNodeLocked = none →
        (createRuntimeSystemsIntentRouter options).isNodeLocked
          = fun _ => false)
    ∧ (∀ (r : Router) (intent : Intent) (n : NormalizedIntent)
        (entry : CatalogEntry) (tv : JValue),
        normalizeIntent intent = .ok n →
        getIntentCatalogEntry n.type = some entry →
        (if r.strictValidation then entry.validatePayload n.payload
          else none) = none →
        entry.lockCheckPolicy = "reject-if-target-locked" →
        n.payload.getProp "targetRef" = some tv →
        jsTruthy tv = true →
        r.isNodeLocked tv = true →
        r.route intent = .ok (RouteResult.mk false "INTENT_TARGET_LOCKED"
          (some "Target node is locked") (some entry.routingTarget) none)) := by
  have hdisp : ∀ (r : Router) (n : NormalizedIntent) (entry : CatalogEntry),
      (dispatchToHandler r n entry).code ≠ "INTENT_TARGET_LOCKED" := by
    intro r n entry
    rw [dispatchToHandler]
    split
    · dsimp only; decide
    · dsimp only; decide
  refine ⟨?_, ?_, ?_⟩
  · intro r intent res hlock h
    rw [Router.route] at h
    rw [hlock] at h
    dsimp only at h
    split at h
    · exact Except.noConfusion h
    split at h
    · cases h; dsimp only; decide
    split at h
    · cases h; dsimp only; decide
    split at h
    · split at h
      · split at h
        · rename_i hcontr
          exfalso
          revert hcontr
          simp
        · cases h; exact hdisp _ _ _
      · cases h; exact hdisp _ _ _
    · cases h; exact hdisp _ _ _
  · intro options hopt
    rw [createRuntimeSystemsIntentRouter, hopt]
    rfl
  · intro r intent n entry tv hnorm hcat hval hpol htv htruthy hlocked
    rw [Router.route, hnorm]
    dsimp only
    rw [hcat]
    dsimp only
    rw [hval]
    dsimp only
    rw [if_pos hpol, htv]
    dsimp only
    rw [htruthy, hlocked]
    simp

end IntentRouter

namespace TimeSystem

theorem dts_safe :
    ∀ (readings : List JSNum) (ts : System), 0 < ts.tickDurationMs →
      ∀ dt ∈ dtsOf ts readings,
        (∃ q, dt = .fin q ∧ 0 ≤ q) ∧ runTimePhase dt = .ok dt
  | [], ts, hpos, dt, hdt => by simp [dtsOf] at hdt
  | c :: rest, ts, hpos, dt, hdt => by
    rw [dtsOf] at hdt
    have hdur : ((getDeltaTime ts c).2).tickDurationMs = ts.tickDurationMs := by
      rw [getDeltaTime]
      cases ts.lastNow with
      | none => rfl
      | some last => dsimp only; split <;> rfl
    rcases List.mem_cons.mp hdt with rfl | htail
    · have hfinOk : ∀ q : ℚ, 0 ≤ q →
          (∃ q', JSNum.fin q = .fin q' ∧ 0 ≤ q')
          ∧ runTimePhase (.fin q) = .ok (.fin q) := by
        intro q hq
        refine ⟨⟨q, rfl, hq⟩, ?_⟩
        rw [runTimePhase, if_neg]
        simp [jsIsFinite, jsLtZero]
        linarith
      rw [getDeltaTime]
      cases ts.lastNow with
      | none => exact hfinOk ts.tickDurationMs (le_of_lt hpos)
      | some last =>
        dsimp only
        split
        · exact hfinOk ts.tickDurationMs (le_of_lt hpos)
        · rename_i hcond
          rw [not_or] at hcond
          obtain ⟨hfin, hneg⟩ := hcond
          cases helps : jsSub c last with
          | fin q =>
            refine hfinOk q ?_
            rw [helps] at hneg
            simp [jsLtZero] at hneg
            exact hneg
          | nan => rw [helps] at hfin; simp [jsIsFinite] at hfin
          | posInf => rw [helps] at hfin; simp [jsIsFinite] at hfin
          | negInf => rw [helps] at hfin; simp [jsIsFinite] at hfin
    · exact dts_safe rest _ (hdur ▸ hpos) dt htail

/-- **C10.** The built-in `TimeSystem.getDeltaTime` only ever returns
finite, non-negative numbers (first call and degenerate elapsed values
fall back to the positive tick duration), so the engine's time-phase
fatal rejection never fires with the default `TimeSystem`. -/
theorem time_system_dt_safe (options : Options) (readings : List JSNum) :
    ∀ dt ∈ dtsOf (create options) readings,
      (∃ q, dt = .fin q ∧ 0 ≤ q) ∧ runTimePhase dt = .ok dt := by
  apply dts_safe
  have hrate : (0:ℚ) <
      (match options.tickRate with
        | some (.fin q) => if 0 < q then q else 60
        | _ => (60:ℚ)) := by
    match options.tickRate with
    | some (.fin q) =>
      dsimp only
      split
      · assumption
      · norm_num
    | some .nan => norm_num
    | some .posInf => norm_num
    | some .negInf => norm_num
    | none => norm_num
  rw [create]
  exact div_pos (by norm_num) hrate

/-- Witness for C10: the default system's first call (with a `NaN` clock
reading) yields the tick duration, accepted by the time phase. -/
theorem time_system_dt_safe_witness :
    runTimePhase (.fin (1000 / 60)) = .ok (.fin (1000 / 60))
    ∧ (JSNum.fin (1000 / 60)) ∈ dtsOf (create {}) [.nan] :=
  ⟨(time_system_dt_safe {} [.nan] (.fin (1000 / 60)) (List.Mem.head _)).2,
    List.Mem.head _⟩

end TimeSystem

theorem getProp_objSet_same (kvs : List (String × JValue)) (k : String)
    (v : JValue) :
    (JValue.obj (JValue.objSet kvs k v)).getProp k = some v := by
  induction kvs with
  | nil => simp [JValue.objSet, JValue.getProp, List.find?]
  | cons kv rest ih =>
    by_cases h : kv.1 = k
    · simp [JValue.objSet, h, JValue.getProp, List.find?]
    · rw [JValue.objSet]
      simp only [if_neg h]
      simpa [JValue.getProp, List.find?, h] using ih

theorem getProp_objSet_other (kvs : List (String × JValue)) (k k' : String)
    (v : JValue) (h : k' ≠ k) :
    (JValue.obj (JValue.objSet kvs k v)).getProp k'
      = (JValue.obj kvs).getProp k' := by
  induction kvs with
  | nil => simp [JValue.objSet, JValue.getProp, List.find?, Ne.symm h]
  | cons kv rest ih =>
    by_cases hk : kv.1 = k
    · rw [JValue.objSet]
      simp only [if_pos hk]
      simp [JValue.getProp, List.find?, hk, Ne.symm h]
    · rw [JValue.objSet]
      simp only [if_neg hk]
      by_cases hk' : kv.1 = k'
      · simp [JValue.getProp, List.find?, hk']
      · simpa [JValue.getProp, List.find?, hk'] using ih

theorem splitChar_ne_nil (sep : Char) : ∀ l : List Char, splitChar sep l ≠ []
  | [] => by simp [splitChar]
  | ch :: rest => by
    rw [splitChar]
    split
    · simp
    · cases h : splitChar sep rest <;> simp

theorem jsSplit_ne_nil (s : String) (sep : Char) : jsSplit s sep ≠ [] := by
  rw [jsSplit]
  intro hcontr
  exact splitChar_ne_nil sep s.toList (List.map_eq_nil_iff.mp hcontr)

namespace LayerResetService

theorem deepClone_eq : ∀ v : JValue, deepClone v = v
  | .null => by rw [deepClone]
  | .bool _ => by rw [deepClone]
  | .num _ => by rw [deepClone]
  | .str _ => by rw [deepClone]
  | .arr items => by
    rw [deepClone]
    congr 1
    rw [List.map_congr_left (fun i _ => deepClone_eq i.1)]
    exact List.attach_map_subtype_val items
  | .obj kvs => by
    rw [deepClone]
    congr 1
    rw [List.map_congr_left (fun kv _ => by rw [deepClone_eq kv.1.2])]
    exact List.attach_map_subtype_val kvs
termination_by v => sizeOf v
decreasing_by
  · have := List.sizeOf_lt_of_mem i.2; simp_wf; omega
  · have h1 := List.sizeOf_lt_of_mem kv.2
    have h2 : sizeOf kv.1.2 < sizeOf kv.1 := by
      obtain ⟨a, b⟩ := kv.1; simp
    simp_wf; omega

theorem getPath_setPath_same :
    ∀ (parts : List String) (kvs : List (String × JValue)) (v : JValue),
      parts ≠ [] →
      getPathParts (.obj (setPathParts kvs parts v)) parts
        = some (deepClone v)
  | [], _, _, h => absurd rfl h
  | [last], kvs, v, _ => by
    rw [setPathParts, getPathParts, getProp_objSet_same]
    rfl
  | part :: p2 :: rest, kvs, v, _ => by
    rw [setPathParts, getPathParts]
    rw [getProp_objSet_same]
    simp only [isTraversable, if_true]
    exact getPath_setPath_same (p2 :: rest) _ v (by simp)

theorem getPath_setPath_nil_frame :
    ∀ (p1 p2 : List String) (v : JValue),
      ¬(p1 <+: p2) → ¬(p2 <+: p1) →
      getPathParts (.obj (setPathParts [] p2 v)) p1 = none
  | [], p2, _, h1, _ => absurd List.nil_prefix h1
  | _ :: _, [], _, _, h2 => absurd List.nil_prefix h2
  | a :: t1, b :: t2, v, h1, h2 => by
    by_cases hab : a = b
    · subst hab
      have h1' : ¬(t1 <+: t2) := fun hp => h1 (List.cons_prefix_cons.mpr ⟨rfl, hp⟩)
      have h2' : ¬(t2 <+: t1) := fun hp => h2 (List.cons_prefix_cons.mpr ⟨rfl, hp⟩)
      cases t2 with
      | nil => exact absurd List.nil_prefix h2'
      | cons c t2' =>
        rw [setPathParts, getPathParts]
        rw [getProp_objSet_same]
        simp only [isTraversable, if_true]
        cases t1 with
        | nil => exact absurd List.nil_prefix h1'
        | cons d t1' => exact getPath_setPath_nil_frame (d :: t1') (c :: t2') v h1' h2'
    · cases t2 with
      | nil =>
        rw [setPathParts, getPathParts, getProp_objSet_other _ _ _ _ hab]
        simp [JValue.getProp]
      | cons c t2' =>
        rw [setPathParts, getPathParts]
        rw [getProp_objSet_other _ _ _ _ hab]
        simp [JValue.getProp]

theorem getPath_setPath_frame :
    ∀ (p1 p2 : List String) (kvs : List (String × JValue)) (v : JValue),
      ¬(p1 <+: p2) → ¬(p2 <+: p1) →
      getPathParts (.obj (setPathParts kvs p2 v)) p1
        = getPathParts (.obj kvs) p1
  | [], p2, _, _, h1, _ => absurd List.nil_prefix h1
  | _ :: _, [], _, _, _, h2 => absurd List.nil_prefix h2
  | a :: t1, b :: t2, kvs, v, h1, h2 => by
    by_cases hab : a = b
    · subst hab
      have h1' : ¬(t1 <+: t2) := fun hp => h1 (List.cons_prefix_cons.mpr ⟨rfl, hp⟩)
      have h2' : ¬(t2 <+: t1) := fun hp => h2 (List.cons_prefix_cons.mpr ⟨rfl, hp⟩)
      cases t2 with
      | nil => exact absurd List.nil_prefix h2'
      | cons c t2' =>
        rw [setPathParts]
        rw [getPathParts, getPathParts]
        simp only [isTraversable, if_true]
        rw [getProp_objSet_same]
        cases t1 with
        | nil => exact absurd List.nil_prefix h1'
        | cons d t1' =>
          cases hget : (JValue.obj kvs).getProp a with
          | none => exact getPath_setPath_nil_frame (d :: t1') (c :: t2') v h1' h2'
          | some w =>
            cases w with
            | obj nkvs => exact getPath_setPath_frame (d :: t1') (c :: t2') nkvs v h1' h2'
            | null => exact getPath_setPath_nil_frame (d :: t1') (c :: t2') v h1' h2'
            | bool bb => exact getPath_setPath_nil_frame (d :: t1') (c :: t2') v h1' h2'
            | num q => exact getPath_setPath_nil_frame (d :: t1') (c :: t2') v h1' h2'
            | str ss => exact getPath_setPath_nil_frame (d :: t1') (c :: t2') v h1' h2'
            | arr items => exact getPath_setPath_nil_frame (d :: t1') (c :: t2') v h1' h2'
    · cases t2 with
      | nil =>
        rw [setPathParts, getPathParts, getPathParts,
          getProp_objSet_other _ _ _ _ hab]
        simp [isTraversable]
      | cons c t2' =>
        rw [setPathParts]
        rw [getPathParts, getPathParts, getProp_objSet_other _ _ _ _ hab]
        simp [isTraversable]

/-- The keep-copy loop body of `execute`. -/
def keepStep (cur : JValue) (acc : List (String × JValue)) (kp : String) :
    List (String × JValue) :=
  match getPath cur kp with
  | some v => setPath acc kp v
  | none => acc

theorem fold_keeps_frame (cur : JValue) :
    ∀ (keeps : List String) (acc : List (String × JValue)) (q : List String),
      (∀ kp ∈ keeps, ¬(q <+: jsSplit kp '.') ∧ ¬(jsSplit kp '.' <+: q)) →
      getPathParts (.obj (keeps.foldl (keepStep cur) acc)) q
        = getPathParts (.obj acc) q
  | [], _, _, _ => rfl
  | kp :: rest, acc, q, h => by
    rw [List.foldl_cons]
    rw [fold_keeps_frame cur rest _ q (fun kp' hm => h kp' (by simp [hm]))]
    obtain ⟨hq1, hq2⟩ := h kp (by simp)
    rw [keepStep]
    cases getPath cur kp with
    | none => rfl
    | some v => exact getPath_setPath_frame q (jsSplit kp '.') acc v hq1 hq2

theorem fold_keeps_kept (cur : JValue) :
    ∀ (keeps : List String) (acc : List (String × JValue)) (kp : String)
      (v : JValue),
      kp ∈ keeps →
      keeps.Pairwise PathDisjoint →
      getPath cur kp = some v →
      getPathParts (.obj (keeps.foldl (keepStep cur) acc)) (jsSplit kp '.')
        = some (deepClone v)
  | [], _, _, _, hmem, _, _ => absurd hmem (by simp)
  | k0 :: rest, acc, kp, v, hmem, hpw, hget => by
    rw [List.foldl_cons]
    rcases List.mem_cons.mp hmem with rfl | hmem'
    · have hdisj : ∀ kp' ∈ rest, PathDisjoint kp kp' :=
        (List.pairwise_cons.mp hpw).1
      rw [fold_keeps_frame cur rest _ (jsSplit kp '.')
        (fun kp' hm => (hdisj kp' hm))]
      rw [keepStep, hget]
      exact getPath_setPath_same (jsSplit kp '.') acc v (jsSplit_ne_nil kp '.')
    · exact fold_keeps_kept cur rest _ kp v hmem'
        (List.pairwise_cons.mp hpw).2 hget

/-- **C6.** Layer reset keep semantics: after `execute`, every keep path
whose value was defined in the pre-reset canonical snapshot reads back
that pre-reset value; every path disjoint from all keep paths reads its
value from the definition's initial state; the derived namespace is
untouched (the canonical namespace is replaced in one assignment); and a
`LAYER_RESET_EXECUTED` event carrying the layer id, the sanitized keep
paths as `preservedKeys` and the defaulted reason is published. -/
theorem layer_reset_keep_semantics
    (d : GameDef) (s : StateStore.Store) (layerId : String)
    (reason : Option String) (layer : LayerDef)
    (hfind : d.layers.find? (fun l => l.id = layerId) = some layer)
    (out : ExecuteOutcome)
    (hex : execute d s layerId reason = .ok out)
    (hdisj : (getKeepPaths layer).Pairwise PathDisjoint) :
    (∀ kp ∈ getKeepPaths layer, ∀ v,
      getPath (.obj s.canonicalState) kp = some v →
      getPath (.obj out.store.canonicalState) kp = some v)
    ∧ (∀ q, (∀ kp ∈ getKeepPaths layer, PathDisjoint q kp) →
        getPath (.obj out.store.canonicalState) q
          = getPath (.obj d.state) q)
    ∧ out.store.derivedState = s.derivedState
    ∧ out.published = EventBus.Event.mk "LAYER_RESET_EXECUTED"
        (.obj [("layerId", .str layerId),
          ("preservedKeys", .arr ((getKeepPaths layer).map JValue.str)),
          ("reason", .str (defaultReason reason))]) "unknown"
    ∧ out.keepPaths = getKeepPaths layer := by
  have hfl : findLayer d layerId = .ok layer := by rw [findLayer, hfind]
  rw [execute.eq_def, hfl] at hex
  dsimp only at hex
  have hbase :
      (match deepClone (.obj d.state) with
        | JValue.obj kvs => kvs
        | _ => ([] : List (String × JValue))) = d.state := by
    rw [deepClone_eq]
  rw [hbase] at hex
  have hfold :
      (getKeepPaths layer).foldl
          (fun acc kp =>
            match getPath (.obj s.canonicalState) kp with
            | some v => setPath acc kp v
            | none => acc) d.state
        = (getKeepPaths layer).foldl (keepStep (.obj s.canonicalState)) d.state := by
    rfl
  rw [hfold] at hex
  cases hex
  refine ⟨?_, ?_, rfl, rfl, rfl⟩
  · intro kp hkp v hget
    have := fold_keeps_kept (.obj s.canonicalState) (getKeepPaths layer)
      d.state kp v hkp hdisj hget
    rw [deepClone_eq] at this
    exact this
  · intro q hq
    exact fold_keeps_frame (.obj s.canonicalState) (getKeepPaths layer)
      d.state (jsSplit q '.') (fun kp hm => hq kp hm)

/-- Witness for C6: the S6 scenario (`xp` reverts to `0`, `gold = 200`
survives, `preservedKeys == ["resources.gold"]`). -/
theorem layer_reset_keep_semantics_witness :
    getPath (.obj s6Outcome.store.canonicalState) "resources.gold"
        = some (.num 200)
    ∧ getPath (.obj s6Outcome.store.canonicalState) "resources.xp"
        = some (.num 0)
    ∧ s6Outcome.keepPaths = ["resources.gold"] := by
  have hex : execute s6Def s6Store "idle" none = .ok s6Outcome := by
    rw [execute.eq_def]
    rw [show findLayer s6Def "idle"
      = .ok ⟨"idle", some { keep := some [.str "resources.gold"] }⟩ from rfl]
    dsimp only
    rw [deepClone_eq]
    rw [show getKeepPaths ⟨"idle", some { keep := some [.str "resources.gold"] }⟩
      = ["resources.gold"] from rfl]
    rw [List.foldl_cons, List.foldl_nil]
    rw [show getPath (.obj s6Store.canonicalState) "resources.gold"
      = some (.num 200) from rfl]
    dsimp only
    rw [setPath, show jsSplit "resources.gold" '.' = ["resources", "gold"] from rfl]
    rw [setPathParts]
    rw [setPathParts, deepClone_eq]
    rfl
  have happ := layer_reset_keep_semantics s6Def s6Store "idle" none
    ⟨"idle", some { keep := some [.str "resources.gold"] }⟩ rfl s6Outcome hex
    (by rw [show getKeepPaths ⟨"idle", some { keep := some [.str "resources.gold"] }⟩
          = ["resources.gold"] from rfl]
        simp [PathDisjoint])
  refine ⟨?_, ?_, happ.2.2.2.2⟩
  · exact happ.1 "resources.gold" (List.Mem.head _) (.num 200) rfl
  · refine (happ.2.1 "resources.xp" ?_).trans rfl
    intro kp hkp
    have hkp' : kp = "resources.gold" := List.mem_singleton.mp hkp
    subst hkp'
    constructor
    · decide
    · decide

end LayerResetService

namespace NodeRef

/-! ### Character-level infrastructure for the node-reference codec -/

lemma ws_not_special {c : Char} (h : isJsWhitespace c = true) :
    c ≠ ':' ∧ c ≠ '/' := by
  simp only [isJsWhitespace, decide_eq_true_eq, Bool.or_eq_true] at h
  rcases h with h | h | h | h <;> subst h <;> exact ⟨by decide, by decide⟩

lemma allWs_append {a b : List Char} (ha : AllWs a) (hb : AllWs b) :
    AllWs (a ++ b) := by
  intro c hc
  rcases List.mem_append.mp hc with h | h
  · exact ha c h
  · exact hb c h

lemma dropWhile_allws (a l : List Char) (ha : AllWs a) :
    List.dropWhile isJsWhitespace (a ++ l) = List.dropWhile isJsWhitespace l := by
  induction a with
  | nil => rfl
  | cons c a ih =>
    have hc : isJsWhitespace c = true := ha c (List.mem_cons_self _ _)
    have ha' : AllWs a := fun x hx => ha x (List.mem_cons_of_mem _ hx)
    rw [List.cons_append, List.dropWhile_cons, if_pos hc, ih ha']

lemma getLast?_cons_eq (c : Char) (cs : List Char) :
    (c :: cs).getLast? = some (cs.getLastD c) := by
  induction cs generalizing c with
  | nil => rfl
  | cons c2 cs ih => rw [List.getLast?_cons_cons, ih, List.getLastD_cons]

lemma head?_append_left (x y : List Char) (hx : x ≠ []) :
    (x ++ y).head? = x.head? := by
  cases x with
  | nil => exact absurd rfl hx
  | cons c cs => rfl

lemma getLast?_append_right (x y : List Char) (hy : y ≠ []) :
    (x ++ y).getLast? = y.getLast? := by
  rw [← List.head?_reverse, List.reverse_append, ← List.head?_reverse]
  cases hy' : y.reverse with
  | nil => exact absurd (List.reverse_eq_nil_iff.mp hy') hy
  | cons e es => rfl

lemma trim_ws_wrap (a d core : List Char) (ha : AllWs a) (hd : AllWs d)
    (hne : core ≠ [])
    (hhead : ∀ c, core.head? = some c → isJsWhitespace c = false)
    (hlast : ∀ c, core.getLast? = some c → isJsWhitespace c = false) :
    trimChars (a ++ (core ++ d)) = core := by
  unfold trimChars
  rw [dropWhile_allws _ _ ha]
  obtain ⟨c, cs, rfl⟩ : ∃ c cs, core = c :: cs := by
    cases core with
    | nil => exact absurd rfl hne
    | cons c cs => exact ⟨c, cs, rfl⟩
  have hc : isJsWhitespace c = false := hhead c rfl
  have h1 : List.dropWhile isJsWhitespace (c :: cs ++ d) = c :: cs ++ d := by
    rw [List.cons_append, List.dropWhile_cons, hc]
    simp
  rw [h1]
  rw [List.reverse_append]
  have hd' : AllWs d.reverse := fun x hx => hd x (List.mem_reverse.mp hx)
  rw [dropWhile_allws _ _ hd']
  obtain ⟨e, es, he⟩ : ∃ e es, (c :: cs).reverse = e :: es := by
    cases hrv : (c :: cs).reverse with
    | nil => exact absurd (List.reverse_eq_nil_iff.mp hrv) (by simp)
    | cons e es => exact ⟨e, es, rfl⟩
  have hle : (c :: cs).getLast? = some e := by
    rw [← List.head?_reverse, he]; rfl
  have hee : isJsWhitespace e = false := hlast e hle
  rw [he, List.dropWhile_cons, hee]
  simp only [Bool.false_eq_true, if_false]
  rw [← he, List.reverse_reverse]

lemma mem_dropWhile_of_not (l : List Char) (c : Char) (hc : c ∈ l)
    (hws : isJsWhitespace c = false) :
    c ∈ List.dropWhile isJsWhitespace l := by
  induction l with
  | nil => cases hc
  | cons a l ih =>
    by_cases ha : isJsWhitespace a = true
    · rw [List.dropWhile_cons, if_pos ha]
      rcases List.mem_cons.mp hc with rfl | hmem
      · rw [ha] at hws; cases hws
      · exact ih hmem
    · rw [List.dropWhile_cons, if_neg ha]
      exact hc

lemma trimChars_ne_nil (l : List Char) (c : Char) (hc : c ∈ l)
    (hws : isJsWhitespace c = false) : trimChars l ≠ [] := by
  intro h
  unfold trimChars at h
  rw [List.reverse_eq_nil_iff, List.dropWhile_eq_nil_iff] at h
  have hmem : c ∈ List.dropWhile isJsWhitespace l :=
    mem_dropWhile_of_not l c hc hws
  have := h c (List.mem_reverse.mpr hmem)
  rw [hws] at this
  cases this

lemma splitChar_no_sep (sep : Char) (l : List Char) (h : sep ∉ l) :
    splitChar sep l = [l] := by
  induction l with
  | nil => rfl
  | cons c rest ih =>
    have hc : ¬(c = sep) := fun he => h (he ▸ List.mem_cons_self _ _)
    have hr : sep ∉ rest := fun hm => h (List.mem_cons_of_mem _ hm)
    rw [splitChar, if_neg hc, ih hr]

lemma splitChar_append_sep (sep : Char) (s t : List Char) (h : sep ∉ s) :
    splitChar sep (s ++ sep :: t) = s :: splitChar sep t := by
  induction s with
  | nil => rw [List.nil_append, splitChar, if_pos rfl]
  | cons c s' ih =>
    have hc : ¬(c = sep) := fun he => h (he ▸ List.mem_cons_self _ _)
    have hs : sep ∉ s' := fun hm => h (List.mem_cons_of_mem _ hm)
    rw [List.cons_append, splitChar, if_neg hc, ih hs]

lemma splitChar_joinSlash (segs : List (List Char)) (hne : segs ≠ [])
    (h : ∀ s ∈ segs, ('/' : Char) ∉ s) :
    splitChar '/' (joinSlash segs) = segs := by
  induction segs with
  | nil => exact absurd rfl hne
  | cons s rest ih =>
    cases rest with
    | nil =>
      rw [joinSlash]
      exact splitChar_no_sep '/' s (h s (List.mem_cons_self _ _))
    | cons s2 rest' =>
      rw [joinSlash]
      rw [splitChar_append_sep '/' s _ (h s (List.mem_cons_self _ _))]
      rw [ih (by simp) (fun x hx => h x (List.mem_cons_of_mem _ hx))]

lemma mem_joinSlash_head (c : Char) (s : List Char) (rest : List (List Char))
    (hc : c ∈ s) : c ∈ joinSlash (s :: rest) := by
  cases rest with
  | nil => rw [joinSlash]; exact hc
  | cons s2 rest' => rw [joinSlash]; exact List.mem_append_left _ hc

lemma colonIndex_append (s t : List Char) (h : (':' : Char) ∉ s) :
    colonIndex (s ++ ':' :: t) = some s.length := by
  induction s with
  | nil => rw [List.nil_append, colonIndex, if_pos rfl]; rfl
  | cons c s' ih =>
    have hc : ¬(c = ':') := fun he => h (he ▸ List.mem_cons_self _ _)
    have hs : (':' : Char) ∉ s' := fun hm => h (List.mem_cons_of_mem _ hm)
    rw [List.cons_append, colonIndex, if_neg hc, ih hs]
    rfl

lemma validId_facts (l : List Char) (h : validId l = true) :
    l ≠ [] ∧ (∀ c, l.head? = some c → isJsWhitespace c = false)
      ∧ (∀ c, l.getLast? = some c → isJsWhitespace c = false)
      ∧ ('/' : Char) ∉ l := by
  cases l with
  | nil => rw [validId] at h; cases h
  | cons c cs =>
    rw [validId] at h
    simp only [Bool.and_eq_true, Bool.not_eq_true'] at h
    obtain ⟨⟨h1, h2⟩, h3⟩ := h
    refine ⟨by simp, ?_, ?_, ?_⟩
    · intro x hx
      rw [show (c :: cs).head? = some c from rfl] at hx
      cases hx
      exact h1
    · intro x hx
      rw [getLast?_cons_eq] at hx
      cases hx
      rw [List.getLastD_cons] at h2
      exact h2
    · intro hmem
      have h4 : List.elem '/' (c :: cs) = true := List.elem_iff.mpr hmem
      rw [show (c :: cs).contains '/' = List.elem '/' (c :: cs) from rfl, h4] at h3
      cases h3

lemma append_ne_nil_left (x y : List Char) (hx : x ≠ []) : x ++ y ≠ [] := by
  intro h
  exact hx (List.append_eq_nil.mp h).1

lemma append_ne_nil_right (x y : List Char) (hy : y ≠ []) : x ++ y ≠ [] := by
  intro h
  exact hy (List.append_eq_nil.mp h).2

lemma trim_wsSeg (scope id : List Char) (w : SegWs) (hw : w.Ws)
    (hs_ne : scope ≠ [])
    (hs_head : ∀ c, scope.head? = some c → isJsWhitespace c = false)
    (hid : validId id = true) :
    trimChars (wsSeg scope id w) = scope ++ w.b ++ ':' :: (w.c ++ id) := by
  obtain ⟨ha, hb, hc, hd⟩ := hw
  obtain ⟨hidne, hidh, hidl, hidns⟩ := validId_facts id hid
  have hcore : wsSeg scope id w
      = w.a ++ ((scope ++ w.b ++ ':' :: (w.c ++ id)) ++ w.d) := by
    simp [wsSeg]
  rw [hcore]
  refine trim_ws_wrap _ _ _ ha hd ?_ ?_ ?_
  · exact append_ne_nil_left _ _ (append_ne_nil_left _ _ hs_ne)
  · intro c hc'
    rw [head?_append_left _ _ (append_ne_nil_left _ _ hs_ne),
      head?_append_left _ _ hs_ne] at hc'
    exact hs_head c hc'
  · intro c hc'
    rw [getLast?_append_right _ _ (by simp)] at hc'
    rw [show (':' :: (w.c ++ id)) = [':'] ++ (w.c ++ id) from rfl] at hc'
    rw [getLast?_append_right _ _ (append_ne_nil_right _ _ hidne)] at hc'
    rw [getLast?_append_right _ _ hidne] at hc'
    exact hidl c hc'

lemma slash_not_mem_wsSeg (scope id : List Char) (w : SegWs) (hw : w.Ws)
    (hs : ('/' : Char) ∉ scope) (hid : ('/' : Char) ∉ id) :
    ('/' : Char) ∉ wsSeg scope id w := by
  obtain ⟨ha, hb, hc, hd⟩ := hw
  intro hmem
  unfold wsSeg at hmem
  rcases List.mem_append.mp hmem with h | h
  · rcases List.mem_append.mp h with h | h
    · rcases List.mem_append.mp h with h | h
      · exact (ws_not_special (ha _ h)).2 rfl
      · exact hs h
    · exact (ws_not_special (hb _ h)).2 rfl
  · rcases List.mem_cons.mp h with h | h
    · exact absurd h (by decide)
    · rcases List.mem_append.mp h with h | h
      · rcases List.mem_append.mp h with h | h
        · exact (ws_not_special (hc _ h)).2 rfl
        · exact hid h
      · exact (ws_not_special (hd _ h)).2 rfl

lemma parsePart_core (scope id wb wc : List Char)
    (hs_ne : scope ≠ [])
    (hwb : AllWs wb) (hwc : AllWs wc)
    (hs_col : (':' : Char) ∉ scope)
    (hs_head : ∀ c, scope.head? = some c → isJsWhitespace c = false)
    (hs_last : ∀ c, scope.getLast? = some c → isJsWhitespace c = false)
    (hid : validId id = true) :
    parsePart (scope ++ wb ++ ':' :: (wc ++ id))
      = .ok (String.mk scope, String.mk id) := by
  obtain ⟨hidne, hidh, hidl, hidns⟩ := validId_facts id hid
  have hcol_notin : (':' : Char) ∉ scope ++ wb := by
    intro hm
    rcases List.mem_append.mp hm with hm | hm
    · exact hs_col hm
    · exact (ws_not_special (hwb _ hm)).1 rfl
  have hcol : colonIndex ((scope ++ wb) ++ ':' :: (wc ++ id))
      = some (scope ++ wb).length := colonIndex_append _ _ hcol_notin
  have hne_part : ((scope ++ wb) ++ ':' :: (wc ++ id)).isEmpty = false := by
    cases hp : (scope ++ wb) ++ ':' :: (wc ++ id) with
    | nil => exact absurd hp (append_ne_nil_right _ _ (by simp))
    | cons a b => rfl
  have hlen0 : ¬((scope ++ wb).length = 0) := by
    cases scope with
    | nil => exact absurd rfl hs_ne
    | cons a b => simp
  have hid_pos : 0 < id.length := by
    cases id with
    | nil => exact absurd rfl hidne
    | cons a b => simp
  have hlen1 :
      ¬((scope ++ wb).length
        = ((scope ++ wb) ++ ':' :: (wc ++ id)).length - 1) := by
    intro hcontra
    simp only [List.length_append, List.length_cons] at hcontra
    omega
  have htake : ((scope ++ wb) ++ ':' :: (wc ++ id)).take (scope ++ wb).length
      = scope ++ wb := List.take_left _ _
  have hdrop : ((scope ++ wb) ++ ':' :: (wc ++ id)).drop ((scope ++ wb).length + 1)
      = wc ++ id := by
    have hsplit : (scope ++ wb) ++ ':' :: (wc ++ id)
        = ((scope ++ wb) ++ [':']) ++ (wc ++ id) := by simp
    have hlen : (scope ++ wb).length + 1 = ((scope ++ wb) ++ [':']).length := by
      simp only [List.length_append, List.length_cons, List.length_nil]
    rw [hsplit, hlen, List.drop_left]
  have htrim1 : trimChars (scope ++ wb) = scope := by
    have := trim_ws_wrap [] wb scope (fun c hc => absurd hc (List.not_mem_nil c))
      hwb hs_ne hs_head hs_last
    rw [List.nil_append] at this
    exact this
  have htrim2 : trimChars (wc ++ id) = id := by
    have := trim_ws_wrap wc [] id hwc (fun c hc => absurd hc (List.not_mem_nil c))
      hidne hidh hidl
    rw [List.append_nil] at this
    exact this
  have hidemp : (String.mk id).toList.isEmpty = false := by
    cases id with
    | nil => exact absurd rfl hidne
    | cons a b => rfl
  simp only [parsePart, hne_part, Bool.false_eq_true, if_false, hcol]
  rw [if_neg hlen0, if_neg hlen1]
  rw [htake, hdrop, htrim1, htrim2]
  rw [hidemp]
  simp

lemma parseLoop_step (parts : List (List Char)) (acc : PartialRef)
    (last : Int) (part : List Char) (scope id : String)
    (hpp : parsePart part = .ok (scope, id))
    (hsi : jsIndexOf NODE_REF_ORDER scope = last + 1)
    (hne : last + 1 ≠ -1)
    (hdup : getScope acc scope = none) :
    parseLoop (part :: parts) acc last
      = parseLoop parts (setScope acc scope id) (last + 1) := by
  rw [parseLoop, hpp]
  simp only [hsi, hdup]
  rw [if_neg hne]
  simp

lemma scope_head_fact {c0 : Char} {cs : List Char}
    (hws : isJsWhitespace c0 = false) :
    ∀ c, (c0 :: cs).head? = some c → isJsWhitespace c = false := by
  intro c hc
  rw [show (c0 :: cs).head? = some c0 from rfl] at hc
  cases hc
  exact hws

lemma scope_last_fact {c0 : Char} {cs : List Char}
    (hws : isJsWhitespace (cs.getLastD c0) = false) :
    ∀ c, (c0 :: cs).getLast? = some c → isJsWhitespace c = false := by
  intro c hc
  rw [getLast?_cons_eq] at hc
  cases hc
  exact hws

/-- The facts about a literal scope name needed by the segment lemmas. -/
def ScopeFacts (scopeS : String) : Prop :=
  scopeS.toList ≠ [] ∧ (':' : Char) ∉ scopeS.toList
    ∧ (∀ c, scopeS.toList.head? = some c → isJsWhitespace c = false)
    ∧ (∀ c, scopeS.toList.getLast? = some c → isJsWhitespace c = false)
    ∧ ('/' : Char) ∉ scopeS.toList

lemma scope_facts_layer : ScopeFacts "layer" := by
  have h : "layer".toList = ['l', 'a', 'y', 'e', 'r'] := rfl
  unfold ScopeFacts
  rw [h]
  exact ⟨by decide, by decide, scope_head_fact (by decide),
    scope_last_fact (by decide), by decide⟩

lemma scope_facts_sublayer : ScopeFacts "sublayer" := by
  have h : "sublayer".toList = ['s', 'u', 'b', 'l', 'a', 'y', 'e', 'r'] := rfl
  unfold ScopeFacts
  rw [h]
  exact ⟨by decide, by decide, scope_head_fact (by decide),
    scope_last_fact (by decide), by decide⟩

lemma scope_facts_section : ScopeFacts "section" := by
  have h : "section".toList = ['s', 'e', 'c', 't', 'i', 'o', 'n'] := rfl
  unfold ScopeFacts
  rw [h]
  exact ⟨by decide, by decide, scope_head_fact (by decide),
    scope_last_fact (by decide), by decide⟩

lemma scope_facts_element : ScopeFacts "element" := by
  have h : "element".toList = ['e', 'l', 'e', 'm', 'e', 'n', 't'] := rfl
  unfold ScopeFacts
  rw [h]
  exact ⟨by decide, by decide, scope_head_fact (by decide),
    scope_last_fact (by decide), by decide⟩

lemma seg_ok (scopeS idS : String) (w : SegWs) (hw : w.Ws)
    (hfacts : ScopeFacts scopeS) (hid : validId idS.toList = true) :
    trimChars (wsSeg scopeS.toList idS.toList w)
      = scopeS.toList ++ w.b ++ ':' :: (w.c ++ idS.toList)
    ∧ parsePart (scopeS.toList ++ w.b ++ ':' :: (w.c ++ idS.toList))
      = .ok (scopeS, idS)
    ∧ ('/' : Char) ∉ wsSeg scopeS.toList idS.toList w := by
  obtain ⟨f1, f2, f3, f4, f5⟩ := hfacts
  refine ⟨trim_wsSeg _ _ _ hw f1 f3 hid, ?_,
    slash_not_mem_wsSeg _ _ _ hw f5 (validId_facts _ hid).2.2.2⟩
  exact parsePart_core scopeS.toList idS.toList w.b w.c f1 hw.2.1 hw.2.2.1
    f2 f3 f4 hid

lemma isEmpty_false_of_ne_nil (l : List Char) (h : l ≠ []) :
    l.isEmpty = false := by
  cases l with
  | nil => exact absurd rfl h
  | cons a b => rfl

lemma parse_wsVariant (r : ParsedRef) (hwf : WellFormedRef r)
    (w1 w2 w3 w4 : SegWs) (h1 : w1.Ws) (h2 : w2.Ws) (h3 : w3.Ws) (h4 : w4.Ws) :
    parseNodeRef (wsVariant r w1 w2 w3 w4) = .ok r := by
  obtain ⟨l, sub, sec, el⟩ := r
  unfold WellFormedRef at hwf
  obtain ⟨hl, hsub, hsec, hel, hgap1, hgap2⟩ := hwf
  cases sub with
  | none =>
    cases sec with
    | some c => exact absurd (hgap1 rfl) (by simp)
    | none =>
      cases el with
      | some e => exact absurd (hgap2 rfl) (by simp)
      | none =>
        obtain ⟨htr1, hpp1, hsl1⟩ := seg_ok "layer" l w1 h1 scope_facts_layer hl
        have href : (wsVariant ⟨l, none, none, none⟩ w1 w2 w3 w4).toList
            = joinSlash [wsSeg "layer".toList l.toList w1] := rfl
        have hmem : 'l' ∈ joinSlash [wsSeg "layer".toList l.toList w1] := by
          apply mem_joinSlash_head
          unfold wsSeg
          exact List.mem_append_left _ (List.mem_append_left _
            (List.mem_append_right _ (by decide)))
        have hnes : isNonEmptyString
            (wsVariant ⟨l, none, none, none⟩ w1 w2 w3 w4) = true := by
          unfold isNonEmptyString
          rw [href, isEmpty_false_of_ne_nil _ (trimChars_ne_nil _ 'l' hmem (by decide))]
          rfl
        have hsplit : splitChar '/' (joinSlash [wsSeg "layer".toList l.toList w1])
            = [wsSeg "layer".toList l.toList w1] := by
          apply splitChar_joinSlash _ (by simp)
          intro x hx
          rw [List.mem_singleton] at hx
          subst hx
          exact hsl1
        simp only [parseNodeRef]
        rw [if_neg (not_not_intro hnes)]
        rw [href, hsplit]
        simp only [List.map_cons, List.map_nil]
        rw [htr1]
        rw [parseLoop_step _ ({} : PartialRef) (-1) _ _ _ hpp1 (by decide) (by decide) rfl]
        rw [parseLoop]
        rfl
  | some s =>
    have hs : validId s.toList = true := hsub s rfl
    cases sec with
    | none =>
      cases el with
      | some e => exact absurd (hgap2 rfl) (by simp)
      | none =>
        obtain ⟨htr1, hpp1, hsl1⟩ := seg_ok "layer" l w1 h1 scope_facts_layer hl
        obtain ⟨htr2, hpp2, hsl2⟩ :=
          seg_ok "sublayer" s w2 h2 scope_facts_sublayer hs
        have href : (wsVariant ⟨l, some s, none, none⟩ w1 w2 w3 w4).toList
            = joinSlash [wsSeg "layer".toList l.toList w1,
                wsSeg "sublayer".toList s.toList w2] := rfl
        have hmem : 'l' ∈ joinSlash [wsSeg "layer".toList l.toList w1,
            wsSeg "sublayer".toList s.toList w2] := by
          apply mem_joinSlash_head
          unfold wsSeg
          exact List.mem_append_left _ (List.mem_append_left _
            (List.mem_append_right _ (by decide)))
        have hnes : isNonEmptyString
            (wsVariant ⟨l, some s, none, none⟩ w1 w2 w3 w4) = true := by
          unfold isNonEmptyString
          rw [href, isEmpty_false_of_ne_nil _ (trimChars_ne_nil _ 'l' hmem (by decide))]
          rfl
        have hsplit : splitChar '/'
            (joinSlash [wsSeg "layer".toList l.toList w1,
              wsSeg "sublayer".toList s.toList w2])
            = [wsSeg "layer".toList l.toList w1,
                wsSeg "sublayer".toList s.toList w2] := by
          apply splitChar_joinSlash _ (by simp)
          intro x hx
          rcases List.mem_cons.mp hx with rfl | hx
          · exact hsl1
          rw [List.mem_singleton] at hx
          subst hx
          exact hsl2
        simp only [parseNodeRef]
        rw [if_neg (not_not_intro hnes)]
        rw [href, hsplit]
        simp only [List.map_cons, List.map_nil]
        rw [htr1, htr2]
        rw [parseLoop_step _ ({} : PartialRef) (-1) _ _ _ hpp1 (by decide) (by decide) rfl]
        rw [parseLoop_step _ (setScope {} "layer" l) (-1 + 1) _ _ _ hpp2 (by decide) (by decide) rfl]
        rw [parseLoop]
        rfl
    | some c =>
      have hc : validId c.toList = true := hsec c rfl
      cases el with
      | none =>
        obtain ⟨htr1, hpp1, hsl1⟩ := seg_ok "layer" l w1 h1 scope_facts_layer hl
        obtain ⟨htr2, hpp2, hsl2⟩ :=
          seg_ok "sublayer" s w2 h2 scope_facts_sublayer hs
        obtain ⟨htr3, hpp3, hsl3⟩ :=
          seg_ok "section" c w3 h3 scope_facts_section hc
        have href : (wsVariant ⟨l, some s, some c, none⟩ w1 w2 w3 w4).toList
            = joinSlash [wsSeg "layer".toList l.toList w1,
                wsSeg "sublayer".toList s.toList w2,
                wsSeg "section".toList c.toList w3] := rfl
        have hmem : 'l' ∈ joinSlash [wsSeg "layer".toList l.toList w1,
            wsSeg "sublayer".toList s.toList w2,
            wsSeg "section".toList c.toList w3] := by
          apply mem_joinSlash_head
          unfold wsSeg
          exact List.mem_append_left _ (List.mem_append_left _
            (List.mem_append_right _ (by decide)))
        have hnes : isNonEmptyString
            (wsVariant ⟨l, some s, some c, none⟩ w1 w2 w3 w4) = true := by
          unfold isNonEmptyString
          rw [href, isEmpty_false_of_ne_nil _ (trimChars_ne_nil _ 'l' hmem (by decide))]
          rfl
        have hsplit : splitChar '/'
            (joinSlash [wsSeg "layer".toList l.toList w1,
              wsSeg "sublayer".toList s.toList w2,
              wsSeg "section".toList c.toList w3])
            = [wsSeg "layer".toList l.toList w1,
                wsSeg "sublayer".toList s.toList w2,
                wsSeg "section".toList c.toList w3] := by
          apply splitChar_joinSlash _ (by simp)
          intro x hx
          rcases List.mem_cons.mp hx with rfl | hx
          · exact hsl1
          rcases List.mem_cons.mp hx with rfl | hx
          · exact hsl2
          rw [List.mem_singleton] at hx
          subst hx
          exact hsl3
        simp only [parseNodeRef]
        rw [if_neg (not_not_intro hnes)]
        rw [href, hsplit]
        simp only [List.map_cons, List.map_nil]
        rw [htr1, htr2, htr3]
        rw [parseLoop_step _ ({} : PartialRef) (-1) _ _ _ hpp1 (by decide) (by decide) rfl]
        rw [parseLoop_step _ (setScope {} "layer" l) (-1 + 1) _ _ _ hpp2 (by decide) (by decide) rfl]
        rw [parseLoop_step _ (setScope (setScope {} "layer" l) "sublayer" s) (-1 + 1 + 1) _ _ _ hpp3 (by decide) (by decide) rfl]
        rw [parseLoop]
        rfl
      | some e =>
        have he : validId e.toList = true := hel e rfl
        obtain ⟨htr1, hpp1, hsl1⟩ := seg_ok "layer" l w1 h1 scope_facts_layer hl
        obtain ⟨htr2, hpp2, hsl2⟩ :=
          seg_ok "sublayer" s w2 h2 scope_facts_sublayer hs
        obtain ⟨htr3, hpp3, hsl3⟩ :=
          seg_ok "section" c w3 h3 scope_facts_section hc
        obtain ⟨htr4, hpp4, hsl4⟩ :=
          seg_ok "element" e w4 h4 scope_facts_element he
        have href : (wsVariant ⟨l, some s, some c, some e⟩ w1 w2 w3 w4).toList
            = joinSlash [wsSeg "layer".toList l.toList w1,
                wsSeg "sublayer".toList s.toList w2,
                wsSeg "section".toList c.toList w3,
                wsSeg "element".toList e.toList w4] := rfl
        have hmem : 'l' ∈ joinSlash [wsSeg "layer".toList l.toList w1,
            wsSeg "sublayer".toList s.toList w2,
            wsSeg "section".toList c.toList w3,
            wsSeg "element".toList e.toList w4] := by
          apply mem_joinSlash_head
          unfold wsSeg
          exact List.mem_append_left _ (List.mem_append_left _
            (List.mem_append_right _ (by decide)))
        have hnes : isNonEmptyString
            (wsVariant ⟨l, some s, some c, some e⟩ w1 w2 w3 w4) = true := by
          unfold isNonEmptyString
          rw [href, isEmpty_false_of_ne_nil _ (trimChars_ne_nil _ 'l' hmem (by decide))]
          rfl
        have hsplit : splitChar '/'
            (joinSlash [wsSeg "layer".toList l.toList w1,
              wsSeg "sublayer".toList s.toList w2,
              wsSeg "section".toList c.toList w3,
              wsSeg "element".toList e.toList w4])
            = [wsSeg "layer".toList l.toList w1,
                wsSeg "sublayer".toList s.toList w2,
                wsSeg "section".toList c.toList w3,
                wsSeg "element".toList e.toList w4] := by
          apply splitChar_joinSlash _ (by simp)
          intro x hx
          rcases List.mem_cons.mp hx with rfl | hx
          · exact hsl1
          rcases List.mem_cons.mp hx with rfl | hx
          · exact hsl2
          rcases List.mem_cons.mp hx with rfl | hx
          · exact hsl3
          rw [List.mem_singleton] at hx
          subst hx
          exact hsl4
        simp only [parseNodeRef]
        rw [if_neg (not_not_intro hnes)]
        rw [href, hsplit]
        simp only [List.map_cons, List.map_nil]
        rw [htr1, htr2, htr3, htr4]
        rw [parseLoop_step _ ({} : PartialRef) (-1) _ _ _ hpp1 (by decide) (by decide) rfl]
        rw [parseLoop_step _ (setScope {} "layer" l) (-1 + 1) _ _ _ hpp2 (by decide) (by decide) rfl]
        rw [parseLoop_step _ (setScope (setScope {} "layer" l) "sublayer" s) (-1 + 1 + 1) _ _ _ hpp3 (by decide) (by decide) rfl]
        rw [parseLoop_step _ (setScope (setScope (setScope {} "layer" l) "sublayer" s) "section" c) (-1 + 1 + 1 + 1) _ _ _ hpp4 (by decide) (by decide) rfl]
        rw [parseLoop]
        rfl

lemma validId_ne_empty {s : String} (h : validId s.toList = true) :
    ¬(s = "") := by
  intro he
  subst he
  rw [show ("" : String).toList = [] from rfl] at h
  rw [validId] at h
  cases h

lemma format_eq_wsVariant (r : ParsedRef) (hwf : WellFormedRef r) :
    formatNodeRef r
      = wsVariant r ⟨[], [], [], []⟩ ⟨[], [], [], []⟩ ⟨[], [], [], []⟩
          ⟨[], [], [], []⟩ := by
  obtain ⟨l, sub, sec, el⟩ := r
  unfold WellFormedRef at hwf
  obtain ⟨hl, hsub, hsec, hel, -, -⟩ := hwf
  cases sub with
  | none =>
    cases sec with
    | none =>
      cases el with
      | none =>
        unfold formatNodeRef wsVariant formatSegments wsVariantSegments
        simp [wsSeg]
      | some e =>
        have he := validId_ne_empty (hel e rfl)
        unfold formatNodeRef wsVariant formatSegments wsVariantSegments
        simp [wsSeg, he]
    | some c =>
      have hc := validId_ne_empty (hsec c rfl)
      cases el with
      | none =>
        unfold formatNodeRef wsVariant formatSegments wsVariantSegments
        simp [wsSeg, hc]
      | some e =>
        have he := validId_ne_empty (hel e rfl)
        unfold formatNodeRef wsVariant formatSegments wsVariantSegments
        simp [wsSeg, hc, he]
  | some s =>
    have hs := validId_ne_empty (hsub s rfl)
    cases sec with
    | none =>
      cases el with
      | none =>
        unfold formatNodeRef wsVariant formatSegments wsVariantSegments
        simp [wsSeg, hs]
      | some e =>
        have he := validId_ne_empty (hel e rfl)
        unfold formatNodeRef wsVariant formatSegments wsVariantSegments
        simp [wsSeg, hs, he]
    | some c =>
      have hc := validId_ne_empty (hsec c rfl)
      cases el with
      | none =>
        unfold formatNodeRef wsVariant formatSegments wsVariantSegments
        simp [wsSeg, hs, hc]
      | some e =>
        have he := validId_ne_empty (hel e rfl)
        unfold formatNodeRef wsVariant formatSegments wsVariantSegments
        simp [wsSeg, hs, hc, he]

/-- C8: Node reference round-trip. For every well-formed parsed reference
`r` (scopes gap-free starting at `layer`, each id non-empty, free of `/`
and of leading/trailing whitespace) the canonical string `S = formatNodeRef
r` satisfies `parseNodeRef S = .ok r` (hence `formatNodeRef` of the parse
is `S` again, witnessed by `normalizeNodeRef S = .ok S`), and
`normalizeNodeRef` applied to any whitespace variant of `S` (arbitrary JS
whitespace inserted before/after each scope name and each id in every
segment) parses to the same record and returns the canonical `S`. -/
theorem node_ref_round_trip (r : ParsedRef) (hwf : WellFormedRef r)
    (w1 w2 w3 w4 : SegWs) (hw1 : w1.Ws) (hw2 : w2.Ws) (hw3 : w3.Ws)
    (hw4 : w4.Ws) :
    parseNodeRef (formatNodeRef r) = .ok r
    ∧ normalizeNodeRef (formatNodeRef r) = .ok (formatNodeRef r)
    ∧ parseNodeRef (wsVariant r w1 w2 w3 w4) = .ok r
    ∧ normalizeNodeRef (wsVariant r w1 w2 w3 w4) = .ok (formatNodeRef r) := by
  have hvar := parse_wsVariant r hwf w1 w2 w3 w4 hw1 hw2 hw3 hw4
  have hempty : (⟨[], [], [], []⟩ : SegWs).Ws := by
    refine ⟨?_, ?_, ?_, ?_⟩ <;> intro c hc <;> exact absurd hc (List.not_mem_nil c)
  have hcanon := parse_wsVariant r hwf _ _ _ _ hempty hempty hempty hempty
  rw [← format_eq_wsVariant r hwf] at hcanon
  refine ⟨hcanon, ?_, hvar, ?_⟩
  · unfold normalizeNodeRef
    rw [hcanon]
  · unfold normalizeNodeRef
    rw [hvar]

theorem node_ref_round_trip_witness :
    parseNodeRef "  layer : alpha /sublayer:\tbeta  "
      = .ok ⟨"alpha", some "beta", none, none⟩
    ∧ normalizeNodeRef "  layer : alpha /sublayer:\tbeta  "
      = .ok "layer:alpha/sublayer:beta"
    ∧ parseNodeRef "layer:alpha/sublayer:beta"
      = .ok ⟨"alpha", some "beta", none, none⟩ := by
  have hwf : WellFormedRef ⟨"alpha", some "beta", none, none⟩ := by
    unfold WellFormedRef
    refine ⟨by decide, ?_, ?_, ?_, fun _ => rfl, ?_⟩
    · intro s hs
      cases hs
      decide
    · intro s hs
      exact Option.noConfusion hs
    · intro s hs
      exact Option.noConfusion hs
    · intro h
      exact absurd h (by decide)
  have h := node_ref_round_trip ⟨"alpha", some "beta", none, none⟩ hwf
    ⟨[' ', ' '], [' '], [' '], [' ']⟩ ⟨[], [], ['\t'], [' ', ' ']⟩
    ⟨[], [], [], []⟩ ⟨[], [], [], []⟩
    (by unfold SegWs.Ws AllWs; refine ⟨?_, ?_, ?_, ?_⟩ <;> decide)
    (by unfold SegWs.Ws AllWs; refine ⟨?_, ?_, ?_, ?_⟩ <;> decide)
    (by unfold SegWs.Ws AllWs; refine ⟨?_, ?_, ?_, ?_⟩ <;> decide)
    (by unfold SegWs.Ws AllWs; refine ⟨?_, ?_, ?_, ?_⟩ <;> decide)
  obtain ⟨h1, -, h3, h4⟩ := h
  have hv : wsVariant ⟨"alpha", some "beta", none, none⟩
      ⟨[' ', ' '], [' '], [' '], [' ']⟩ ⟨[], [], ['\t'], [' ', ' ']⟩
      ⟨[], [], [], []⟩ ⟨[], [], [], []⟩
      = "  layer : alpha /sublayer:\tbeta  " := by decide
  have hf : formatNodeRef ⟨"alpha", some "beta", none, none⟩
      = "layer:alpha/sublayer:beta" := by decide
  rw [hv] at h3 h4
  rw [hf] at h4 h1
  exact ⟨h3, h4, h1⟩

end NodeRef
